import Mathlib

/-!
Verification of the rule-based adaptive chunking pipeline
(`adaptive_chunking.py`): text normalization, cue-pattern classification,
and the stateful chunk-boundary reducer.

Strings are modelled as lists of characters (`Str`); each Python helper is
translated to an executable Lean function of the same name.  Regular
expressions of the source are unfolded into explicit character scans with
the same semantics on the character classes they use.
-/

namespace AdaptiveChunking

/-- Strings are modelled as lists of characters. -/
abbrev Str := List Char

/-- Python whitespace for `\s`, `str.split()` and `str.strip()`
(ASCII subset: space, tab, newline, carriage return, vertical tab, form feed). -/
def isPyWs (c : Char) : Bool :=
  c = ' ' || c = '\t' || c = '\n' || c = '\r' || c = '\x0b' || c = '\x0c'

/-- The character class `[ \t]` used by the whitespace-collapsing regex. -/
def isSpTab (c : Char) : Bool := c = ' ' || c = '\t'

/-- ASCII lowercase letter (`[a-z]`). -/
def isAsciiLower (c : Char) : Bool := 'a' ≤ c && c ≤ 'z'

/-- ASCII uppercase letter (`[A-Z]`). -/
def isAsciiUpper (c : Char) : Bool := 'A' ≤ c && c ≤ 'Z'

/-- ASCII letter (`[A-Za-z]`). -/
def isAsciiAlpha (c : Char) : Bool := isAsciiLower c || isAsciiUpper c

/-- ASCII digit (`[0-9]`). -/
def isAsciiDigit (c : Char) : Bool := '0' ≤ c && c ≤ '9'

/-- Word character for `\w` and the `\b` boundary (ASCII subset). -/
def isWordChar (c : Char) : Bool := isAsciiAlpha c || isAsciiDigit c || c = '_'

/-- ASCII lowercasing, the effect of Python `str.lower()` on the texts involved. -/
def lowerChar (c : Char) : Char :=
  if isAsciiUpper c then Char.ofNat (c.toNat + 32) else c

/-- `str.lower()`. -/
def toLowerStr (t : Str) : Str := t.map lowerChar

/-- `' '`, the non-breaking space replaced by `normalize_text`. -/
def nbsp : Char := '\u00A0'

/-- Stage 1 of `normalize_text`: `t.replace(" ", " ")`. -/
def replaceNbsp (t : Str) : Str := t.map (fun c => if c = nbsp then ' ' else c)

/-- Stage 2 of `normalize_text`: `re.sub(r"[ \t]+", " ", t)` — every maximal
run of spaces/tabs becomes a single space. -/
def collapseSpaces : Str → Str
  | [] => []
  | c :: cs =>
    if isSpTab c then
      match cs with
      | [] => [' ']
      | c2 :: _ => if isSpTab c2 then collapseSpaces cs else ' ' :: collapseSpaces cs
    else c :: collapseSpaces cs

/-- Stage 3 of `normalize_text`: `re.sub(r"\n{3,}", "\n\n", t)` — every maximal
run of three or more newlines becomes exactly two. -/
def collapseNewlines : Str → Str
  | [] => []
  | c :: cs =>
    if c = '\n' then
      match cs with
      | c2 :: c3 :: _ =>
        if c2 = '\n' && c3 = '\n' then collapseNewlines cs
        else '\n' :: collapseNewlines cs
      | _ => '\n' :: collapseNewlines cs
    else c :: collapseNewlines cs

/-- Drop trailing characters satisfying `isPyWs` (the right half of `str.strip()`). -/
def dropTrailingWs : Str → Str
  | [] => []
  | c :: cs =>
    match dropTrailingWs cs with
    | [] => if isPyWs c then [] else [c]
    | r => c :: r

/-- Stage 4 of `normalize_text`: `str.strip()`. -/
def pyStrip (t : Str) : Str := dropTrailingWs (t.dropWhile isPyWs)

/-- `normalize_text`: replace non-breaking spaces, collapse horizontal
whitespace runs to one space, collapse 3+ newlines to 2, trim. -/
def normalize_text (t : Str) : Str :=
  pyStrip (collapseNewlines (collapseSpaces (replaceNbsp t)))

/-- Shorthand turning a string literal into its character-list model. -/
def lit (x : String) : Str := x.toList

/-- The newline character test, as used by the newline-collapsing stage. -/
def isNl (c : Char) : Bool := c = '\n'

/-- No two adjacent characters are both spaces/tabs (the fixed point of the
whitespace-collapsing stage, together with tab-freeness). -/
def noAdjSpTab : Str → Bool
  | [] => true
  | a :: l =>
    (match l.head? with
     | some b => !(isSpTab a && isSpTab b)
     | none => true) && noAdjSpTab l

/-- No three consecutive newlines (the fixed point of the newline-collapsing
stage). -/
def noTripleNl : Str → Bool
  | [] => true
  | a :: l =>
    (match l with
     | b :: c :: _ => !(isNl a && isNl b && isNl c)
     | _ => true) && noTripleNl l

/-- `IMPERATIVE_VERBS` from the source. -/
def IMPERATIVE_VERBS : List Str :=
  [lit "amati", lit "perhatikan", lit "lakukan", lit "siapkan", lit "diskusikan",
   lit "tuliskan", lit "jawablah", lit "sebutkan", lit "urutkan", lit "pasangkan",
   lit "buatlah", lit "bacalah", lit "cermati", lit "pahami", lit "gunakan",
   lit "kerjakan", lit "cobalah", lit "tentukan", lit "prediksi", lit "isilah",
   lit "lengkapilah", lit "tebaklah", lit "ukur", lit "gambar", lit "hitung",
   lit "jelaskan", lit "uraikan", lit "pilihlah", lit "lingkarilah"]

/-- `EVAL_TRIGGERS` from the source. -/
def EVAL_TRIGGERS : List Str :=
  [lit "latihan", lit "soal", lit "ujian",
   lit "jawablah", lit "isilah", lit "pasangkan", lit "urutkan", lit "pilihlah",
   lit "lengkapilah", lit "teka-teki silang", lit "diagram venn",
   lit "refleksikan", lit "refleksi", lit "mari refleksikan", lit "mari refleksi",
   lit "evaluasi", lit "penilaian"]

/-- `PROMPT_WORDS` from the source. -/
def PROMPT_WORDS : List Str :=
  [lit "tahukah", lit "yuk", lit "mari", lit "pernahkah", lit "selamat belajar",
   lit "masih ingat"]

/-- `ACTIVITY_HEADINGS` from the source. -/
def ACTIVITY_HEADINGS : List Str :=
  [lit "lakukan bersama", lit "mari mencoba", lit "ayo,", lit "ayo ",
   lit "belajar lebih lanjut", lit "projek", lit "proyek"]

/-- `GLOSSARY_HEADINGS` from the source. -/
def GLOSSARY_HEADINGS : List Str := [lit "kosakata baru"]

/-- `QUESTION_WORDS` from the source. -/
def QUESTION_WORDS : List Str :=
  [lit "apa", lit "mengapa", lit "bagaimana", lit "kapan", lit "siapa",
   lit "di mana", lit "dimana", lit "kenapa"]

/-- `STEP_PREFIXES` from the source. -/
def STEP_PREFIXES : List Str :=
  [lit "saat kalian", lit "ketika kalian", lit "jika kalian", lit "bila kalian",
   lit "setelah itu", lit "kemudian", lit "lalu"]

/-- Substring search: Python `pat in t`. -/
def containsSub (pat : Str) : Str → Bool
  | [] => pat.isEmpty
  | c :: cs => pat.isPrefixOf (c :: cs) || containsSub pat cs

/-- Word character of an optional char; positions outside the string count
as non-word for the `\b` boundary. -/
def isWordOpt : Option Char → Bool
  | some c => isWordChar c
  | none => false

/-- A `\b` boundary lies between two (optional) characters iff exactly one
side is a word character. -/
def boundaryB (a b : Option Char) : Bool := isWordOpt a != isWordOpt b

/-- Scan for `\b pat \b` starting at each position; `prev` is the character
just before the current position, `pl` the last character of `pat`. -/
def searchWordPatAux (pat : Str) (pl : Char) : Option Char → Str → Bool
  | _, [] => false
  | prev, c :: cs =>
    (pat.isPrefixOf (c :: cs)
      && boundaryB prev (some c)
      && boundaryB (some pl) (((c :: cs).drop pat.length).head?))
    || searchWordPatAux pat pl (some c) cs

/-- `re.search(r"\b" + pat + r"\b", t)` for a literal (possibly multi-word)
pattern `pat`. -/
def searchWordPat (pat : Str) (t : Str) : Bool :=
  match pat.getLast? with
  | none => false
  | some pl => searchWordPatAux pat pl none t

/-- The institutional-keyword patterns of `looks_like_book_meta`; the
alternation `\b(pusat|balai) kurikulum\b` is unfolded into its two cases. -/
def metaPatterns : List Str :=
  [lit "isbn", lit "kementerian", lit "republik indonesia", lit "kemendikbud",
   lit "penulis", lit "jil.", lit "hak cipta",
   lit "pusat kurikulum", lit "balai kurikulum"]

/-- `looks_like_book_meta`: institutional keywords, or ≥30 ASCII letters with
more than 85% uppercase (the float threshold is modelled exactly over ℚ,
i.e. `100·upper > 85·letters`). -/
def looks_like_book_meta (t : Str) : Bool :=
  let tl := toLowerStr (normalize_text t)
  if tl.isEmpty then false
  else if metaPatterns.any (fun p => searchWordPat p tl) then true
  else
    let letters := t.filter isAsciiAlpha
    if letters.length ≥ 30 then
      100 * (letters.filter isAsciiUpper).length > 85 * letters.length
    else false

/-- `is_numbered_line`: `re.match(r"^\s*\d+\.\s+", t)`. -/
def is_numbered_line (t : Str) : Bool :=
  let r := t.dropWhile isPyWs
  let ds := r.takeWhile isAsciiDigit
  let rest := r.dropWhile isAsciiDigit
  !ds.isEmpty &&
    (match rest with
     | '.' :: c :: _ => isPyWs c
     | _ => false)

/-- `strip_number_prefix` of the source (renamed):
`re.sub(r"^\s*\d+\.\s*", "", t).strip()`. -/
def strip_number_pfx (t : Str) : Str :=
  let r := t.dropWhile isPyWs
  let ds := r.takeWhile isAsciiDigit
  let rest := r.dropWhile isAsciiDigit
  let stripped :=
    if ds.isEmpty then t
    else
      match rest with
      | '.' :: rs => rs.dropWhile isPyWs
      | _ => t
  pyStrip stripped

/-- `looks_like_numbered_question`. -/
def looks_like_numbered_question (t : Str) : Bool :=
  let tn := normalize_text t
  if !is_numbered_line tn then false
  else if tn.contains '?' then true
  else
    let after := toLowerStr (strip_number_pfx tn)
    QUESTION_WORDS.any (fun qw => (qw ++ [' ']).isPrefixOf after || after == qw)

/-- Strip characters outside `\w` and `-` from a token:
`re.sub(r"[^\w-]", "", tok)`. -/
def cleanToken (tok : Str) : Str :=
  tok.filter (fun c => isWordChar c || c = '-')

/-- A cleaned token matches the imperative lexicon exactly or with a
stripped `-lah` suffix. -/
def tokenIsImperative (tok : Str) : Bool :=
  IMPERATIVE_VERBS.contains tok ||
    ((lit "lah").isSuffixOf tok && IMPERATIVE_VERBS.contains (tok.take (tok.length - 3)))

/-- `starts_with_imperative`. -/
def starts_with_imperative (t0 : Str) : Bool :=
  let t := toLowerStr (normalize_text t0)
  if t.isEmpty then false
  else
    let first := cleanToken (t.takeWhile (fun c => !isPyWs c))
    if tokenIsImperative first then true
    else
      [lit "meng", lit "meny", lit "men", lit "mem", lit "me"].any
        (fun p => p.isPrefixOf first)

/-- Maximal runs of characters satisfying `p`, as produced by
`re.findall` on the corresponding character class. -/
def findallRuns (p : Char → Bool) : Str → List Str
  | [] => []
  | c :: cs =>
    let rest := findallRuns p cs
    if p c then
      match cs, rest with
      | c2 :: _, r :: rs => if p c2 then (c :: r) :: rs else [c] :: rest
      | _, _ => [c] :: rest
    else rest

/-- `contains_imperative_anywhere`: any `[a-zA-Z-]+` run of the lowercased
normalized text matches the imperative lexicon (directly or `-lah`-stripped). -/
def contains_imperative_anywhere (t : Str) : Bool :=
  let tl := toLowerStr (normalize_text t)
  if tl.isEmpty then false
  else
    (findallRuns (fun c => isAsciiAlpha c || c = '-') tl).any
      (fun w => tokenIsImperative (cleanToken w))

/-- `str.split()`: maximal runs of non-whitespace characters. -/
def pySplit (t : Str) : List Str := findallRuns (fun c => !isPyWs c) t

/-- `numbered_line_is_heading`. -/
def numbered_line_is_heading (t : Str) : Bool :=
  let tn := normalize_text t
  if !is_numbered_line tn then false
  else if looks_like_numbered_question tn then false
  else
    let after := toLowerStr (strip_number_pfx tn)
    let toks := pySplit after
    if (toks.take 3).any (fun tok => tokenIsImperative (cleanToken tok)) then false
    else if STEP_PREFIXES.any (fun pref => pref.isPrefixOf after) then false
    else toks.length ≤ 6

/-- `re.match(r"^\s*(bab|topik)\s+\w+", tl)`. -/
def matchBabTopik (tl : Str) : Bool :=
  let r := tl.dropWhile isPyWs
  let check := fun (kw : Str) =>
    kw.isPrefixOf r &&
      (let rest := r.drop kw.length
       (match rest.head? with
        | some c => isPyWs c
        | none => false) &&
       (match (rest.dropWhile isPyWs).head? with
        | some c => isWordChar c
        | none => false))
  check (lit "bab") || check (lit "topik")

/-- The last character of `t` is one of `cs` (`re.search(r"[...]$", t)`). -/
def endsWithAny (t : Str) (cs : List Char) : Bool :=
  match t.getLast? with
  | some c => cs.contains c
  | none => false

/-- `re.search(r"\b(adalah|merupakan|yaitu|disebut)\b", tl)`. -/
def hasDefinitionWord (tl : Str) : Bool :=
  [lit "adalah", lit "merupakan", lit "yaitu", lit "disebut"].any
    (fun w => searchWordPat w tl)

/-- `is_heading_text`. -/
def is_heading_text (t0 : Str) : Bool :=
  let t := normalize_text t0
  let tl := toLowerStr t
  if t.isEmpty then false
  else if matchBabTopik tl then true
  else if GLOSSARY_HEADINGS.any (fun h => h.isPrefixOf tl) then true
  else if ACTIVITY_HEADINGS.any (fun h => h.isPrefixOf tl) then true
  else if is_numbered_line t then numbered_line_is_heading t
  else
    let short := (pySplit t).length ≤ 6 && !endsWithAny t ['.', '!', '?']
    let has_definition_word := hasDefinitionWord tl
    let has_question := t.contains '?'
    short && !has_definition_word && !has_question

/-- `looks_like_evaluative`. -/
def looks_like_evaluative (t : Str) : Bool :=
  let tl := toLowerStr (normalize_text t)
  if tl.isEmpty then false
  else if looks_like_numbered_question t then true
  else EVAL_TRIGGERS.any (fun trg => containsSub trg tl)

/-- The continuation connectors of `looks_like_continuation`. -/
def CONT_CONNECTORS : List Str :=
  [lit "dan ", lit "atau ", lit "serta ", lit "yang ", lit "hasil ",
   lit "kemudian", lit "lalu", lit "setelah", lit "karena", lit "sehingga"]

/-- `looks_like_continuation`: previous chunk text does not end with strong
punctuation, current text starts lowercase or with a connector, and the
current text has at most 25 words. -/
def looks_like_continuation (prev_text cur_text : Str) : Bool :=
  let prev := normalize_text prev_text
  let cur := normalize_text cur_text
  if prev.isEmpty || cur.isEmpty then false
  else if endsWithAny prev ['.', '!', '?', '…', ':'] then false
  else
    let cur_l := cur.dropWhile isPyWs
    let starts_lower :=
      match cur_l.head? with
      | some c => isAsciiLower c
      | none => false
    let starts_connector :=
      CONT_CONNECTORS.any (fun p => p.isPrefixOf (toLowerStr cur_l))
    let shortish := (pySplit cur).length ≤ 25
    (starts_lower || starts_connector) && shortish

/-! ## Data model and cue constants -/

/-- Opaque metadata bag (`Optional[Dict]` values are modelled as
association lists; only emptiness/truthiness matters to the core). -/
abbrev MetaBag := List (Str × Str)

/-- `Block` from the source. -/
structure Block where
  id : Str
  text : Str
  block_type : Str
  meta : Option MetaBag
deriving DecidableEq, Repr

/-- `LabeledBlock` from the source. -/
structure LabeledBlock where
  id : Str
  text : Str
  block_type : Str
  cue_pattern : Str
  category : Str
  meta : Option MetaBag
deriving DecidableEq, Repr

def CP_HEADING : Str := lit "NEW_SUBTOPIC_HEADING"
def CP_IMPERATIVE : Str := lit "IMPERATIVE_TASK"
def CP_EVALUATIVE : Str := lit "EVALUATIVE_QUESTION"
def CP_DEFINITION : Str := lit "DEFINITION"
def CP_CAUSE_EFFECT : Str := lit "CAUSE_EFFECT"
def CP_EXAMPLE : Str := lit "EXAMPLE_ILLUSTRATION"
def CP_NARRATIVE : Str := lit "NARRATIVE_SEQUENCE"
def CP_FACT : Str := lit "FACT_EXPLANATION"
def CP_INTRO : Str := lit "PROMPT_INTRO"
def CP_GLOSSARY : Str := lit "GLOSSARY_BOX"
def CP_META : Str := lit "BOOK_META"

/-- `CONTENT_CUES` from the source. -/
def CONTENT_CUES : List Str :=
  [CP_DEFINITION, CP_CAUSE_EFFECT, CP_EXAMPLE, CP_NARRATIVE, CP_FACT, CP_INTRO]

/-- `re.search(r"\b(karena|sehingga|oleh karena itu)\b", tl)`. -/
def hasCauseWord (tl : Str) : Bool :=
  [lit "karena", lit "sehingga", lit "oleh karena itu"].any
    (fun w => searchWordPat w tl)

/-- `re.search(r"\b(misalnya|contohnya|seperti)\b", tl)`. -/
def hasExampleWord (tl : Str) : Bool :=
  [lit "misalnya", lit "contohnya", lit "seperti"].any
    (fun w => searchWordPat w tl)

/-- `re.search(r"\b(dahulu|suatu hari|kemudian|tinggallah)\b", tl)`. -/
def hasNarrativeWord (tl : Str) : Bool :=
  [lit "dahulu", lit "suatu hari", lit "kemudian", lit "tinggallah"].any
    (fun w => searchWordPat w tl)

/-- The body of `detect_cue_pattern` after its first line
`t = normalize_text(block.text)`: the ordered heuristic cascade as a function
of the normalized text. -/
def detectCore (t : Str) : Str :=
  let tl := toLowerStr t
  if looks_like_book_meta t then CP_META
  else if is_heading_text t then
    (if GLOSSARY_HEADINGS.any (fun h => h.isPrefixOf tl) then CP_GLOSSARY
     else if containsSub (lit "refleksikan") tl || containsSub (lit "refleksi") tl then
       CP_EVALUATIVE
     else if ACTIVITY_HEADINGS.any (fun h => h.isPrefixOf tl) then CP_IMPERATIVE
     else if looks_like_numbered_question t then CP_EVALUATIVE
     else CP_HEADING)
  else if is_numbered_line t && !numbered_line_is_heading t then
    (if looks_like_numbered_question t then CP_EVALUATIVE else CP_IMPERATIVE)
  else if starts_with_imperative t || (lit "ayo,").isPrefixOf tl
          || (lit "ayo ").isPrefixOf tl then
    (if looks_like_evaluative t then CP_EVALUATIVE else CP_IMPERATIVE)
  else if looks_like_evaluative t then CP_EVALUATIVE
  else if PROMPT_WORDS.any (fun p => containsSub p tl) then CP_INTRO
  else if hasDefinitionWord tl then CP_DEFINITION
  else if hasCauseWord tl then CP_CAUSE_EFFECT
  else if hasExampleWord tl then CP_EXAMPLE
  else if hasNarrativeWord tl then CP_NARRATIVE
  else CP_FACT

/-- `detect_cue_pattern`. -/
def detect_cue_pattern (b : Block) : Str := detectCore (normalize_text b.text)

/-- `cue_to_category`. -/
def cue_to_category (cue : Str) : Str :=
  if cue = CP_IMPERATIVE then lit "INSTRUKSI"
  else if cue = CP_EVALUATIVE then lit "EVALUASI"
  else if cue = CP_NARRATIVE then lit "NARASI"
  else if cue = CP_GLOSSARY then lit "KONSEP"
  else if cue = CP_META then lit "META"
  else lit "KONSEP"

/-- `label_blocks`: normalize, classify, map the category; 1:1 and
order-preserving. -/
def label_blocks (blocks : List Block) : List LabeledBlock :=
  blocks.map fun b =>
    let cue := detect_cue_pattern b
    { id := b.id
      text := normalize_text b.text
      block_type := b.block_type
      cue_pattern := cue
      category := cue_to_category cue
      meta := some (b.meta.getD []) }

/-! ## Chunk builder -/

/-- `Chunk` from the source; the `meta` dict is modelled by its two keys:
`headings` (always present) and `blocks_meta` (absent ≙ empty list). -/
structure Chunk where
  chunk_id : Str
  texts : List Str
  block_ids : List Str
  cue_patterns : List Str
  categories : List Str
  headings : List Str
  blocks_meta : List (Str × Option MetaBag)
deriving DecidableEq, Repr

/-- `should_start_new_chunk`. -/
def should_start_new_chunk : Option LabeledBlock → LabeledBlock → Bool
  | none, _ => true
  | some prev, cur =>
    if prev.category = lit "INSTRUKSI" ∧ cur.category = lit "INSTRUKSI" then false
    else if prev.category = lit "EVALUASI" ∧ cur.category = lit "EVALUASI" then false
    else if prev.category ≠ cur.category then true
    else false

/-- The mutable loop state of `build_chunks`. -/
structure BCState where
  chunks : List Chunk
  current_activity : Option Str
  current_texts : List Str
  current_ids : List Str
  current_cues : List Str
  current_cats : List Str
  current_headings : List Str
  current_blocks_meta : List (Str × Option MetaBag)
  last_effective : Option LabeledBlock
  last_text_in_chunk : Str
  chunk_counter : Nat
deriving DecidableEq, Repr

/-- The initial loop state of `build_chunks`. -/
def initState : BCState :=
  { chunks := [], current_activity := none, current_texts := [],
    current_ids := [], current_cues := [], current_cats := [],
    current_headings := [], current_blocks_meta := [],
    last_effective := none, last_text_in_chunk := [], chunk_counter := 1 }

/-- `f"CH{counter:04d}"`. -/
def chunkIdOf (n : Nat) : Str :=
  let ds := Nat.toDigits 10 n
  lit "CH" ++ List.replicate (4 - ds.length) '0' ++ ds

/-- The chunk sealed by `flush()` from the accumulator of `s`. -/
def mkChunk (s : BCState) : Chunk :=
  { chunk_id := chunkIdOf s.chunk_counter
    texts := s.current_texts
    block_ids := s.current_ids
    cue_patterns := s.current_cues
    categories := s.current_cats
    headings := s.current_headings
    blocks_meta := s.current_blocks_meta }

/-- The nested `flush()` of `build_chunks`: seal a non-empty accumulator as a
chunk, reset the accumulator, the continuation trackers and the per-chunk
metadata; a no-op on an empty accumulator. -/
def flush (s : BCState) : BCState :=
  if s.current_texts = [] then s
  else
    { s with
      chunks := s.chunks ++ [mkChunk s]
      chunk_counter := s.chunk_counter + 1
      current_texts := [], current_ids := [], current_cues := []
      current_cats := [], current_headings := [], current_blocks_meta := []
      last_effective := none, last_text_in_chunk := [] }

/-- The lock-update step of the loop: glossary releases the lock, imperative
and evaluative cues set it, content cues clear it, anything else keeps it. -/
def updateLock (act : Option Str) (cue : Str) : Option Str :=
  let act := if cue = CP_GLOSSARY then none else act
  if cue = CP_IMPERATIVE then some (lit "INSTRUKSI")
  else if cue = CP_EVALUATIVE then some (lit "EVALUASI")
  else if cue ∈ CONTENT_CUES then none
  else act

/-- The continuation-repair step: the forced `(cue, category)` pair after the
continuation heuristic. -/
def continuationForce (last_eff : Option LabeledBlock) (last_text : Str)
    (lb : LabeledBlock) : Str × Str :=
  match last_eff with
  | none => (lb.cue_pattern, lb.category)
  | some prev =>
    if looks_like_continuation last_text lb.text then
      if prev.category = lit "INSTRUKSI" then (CP_IMPERATIVE, lit "INSTRUKSI")
      else if prev.category = lit "EVALUASI" then (CP_EVALUATIVE, lit "EVALUASI")
      else (lb.cue_pattern, lb.category)
    else (lb.cue_pattern, lb.category)

/-- The first lock-driven coercion branch (split-step merge in INSTRUKSI
mode). -/
def coerceLock1 (act : Option Str) (lb : LabeledBlock) (fc : Str × Str) : Str × Str :=
  if act = some (lit "INSTRUKSI") ∧ fc.1 ∈ [CP_NARRATIVE, CP_FACT, CP_INTRO]
      ∧ contains_imperative_anywhere lb.text then
    (CP_IMPERATIVE, lit "INSTRUKSI")
  else fc

/-- The second lock-driven coercion branch (question-ish keep in EVALUASI
mode). -/
def coerceLock2 (act : Option Str) (lb : LabeledBlock) (fc : Str × Str) : Str × Str :=
  if act = some (lit "EVALUASI") ∧ fc.1 ∈ [CP_FACT, CP_INTRO]
      ∧ (lb.text.contains '?' || looks_like_evaluative lb.text) then
    (CP_EVALUATIVE, lit "EVALUASI")
  else fc

/-- The two lock-driven coercion branches of the loop, applied in order to
the forced `(cue, category)` pair. -/
def coerceLock (act : Option Str) (lb : LabeledBlock) (fc : Str × Str) : Str × Str :=
  coerceLock2 act lb (coerceLock1 act lb fc)

/-- The effective-category resolution: when the lock is active and the
resolved cue confirms it, the lock value wins. -/
def resolveCat (act : Option Str) (fc : Str × Str) : Str :=
  if (act = some (lit "INSTRUKSI") ∨ act = some (lit "EVALUASI"))
      ∧ (fc.1 = CP_IMPERATIVE ∨ fc.1 = CP_EVALUATIVE) then
    act.getD fc.2
  else fc.2

/-- The effective labeled block built by one loop iteration. -/
def effectiveLB (act : Option Str) (last_eff : Option LabeledBlock)
    (last_text : Str) (lb : LabeledBlock) : LabeledBlock :=
  let fc := coerceLock act lb (continuationForce last_eff last_text lb)
  { id := lb.id, text := lb.text, block_type := lb.block_type,
    cue_pattern := fc.1, category := resolveCat act fc, meta := lb.meta }

/-- Python truthiness of an `Optional[Dict]`. -/
def metaTruthy : Option MetaBag → Bool
  | some m => !m.isEmpty
  | none => false

/-- The heading branch of the loop: flush, clear the lock, record the
heading text as pending chunk metadata. -/
def stepHeading (s : BCState) (lb : LabeledBlock) : BCState :=
  let s1 := flush s
  { s1 with current_activity := none
            current_headings := s1.current_headings ++ [lb.text] }

/-- The content branch of the loop: lock update, continuation repair,
lock-driven coercion, effective-category resolution, boundary decision,
append, tracker update. -/
def stepContent (s : BCState) (lb : LabeledBlock) : BCState :=
  let act1 := updateLock s.current_activity lb.cue_pattern
  let eff := effectiveLB act1 s.last_effective s.last_text_in_chunk lb
  let s1 := { s with current_activity := act1 }
  let s2 :=
    if should_start_new_chunk s1.last_effective eff ∧ s1.current_texts ≠ [] then
      flush s1
    else s1
  { s2 with
    current_texts := s2.current_texts ++ [eff.text]
    current_ids := s2.current_ids ++ [eff.id]
    current_cues := s2.current_cues ++ [eff.cue_pattern]
    current_cats := s2.current_cats ++ [eff.category]
    current_blocks_meta :=
      if metaTruthy eff.meta then s2.current_blocks_meta ++ [(eff.id, eff.meta)]
      else s2.current_blocks_meta
    last_effective := some eff
    last_text_in_chunk := eff.text }

/-- One iteration of the `build_chunks` loop. -/
def step (skip_meta : Bool) (s : BCState) (lb : LabeledBlock) : BCState :=
  if skip_meta ∧ lb.cue_pattern = CP_META then s
  else if lb.cue_pattern = CP_HEADING then stepHeading s lb
  else stepContent s lb

/-- `build_chunks` (the `skip_meta_blocks` flag is explicit; the source
defaults it to `True`). -/
def build_chunks (labeled : List LabeledBlock) (skip_meta : Bool) : List Chunk :=
  (flush (labeled.foldl (step skip_meta) initState)).chunks

/-! ## Auxiliary definitions for the statements -/

/-- Total number of `block_ids` entries across a list of chunks. -/
def totalBlockIds (cs : List Chunk) : Nat :=
  (cs.map (fun c => c.block_ids.length)).sum

/-- A labeled block that reaches the content path of the loop: neither a
heading nor (when skip-meta is enabled) a boilerplate block. -/
def isContentBlock (skip_meta : Bool) (lb : LabeledBlock) : Bool :=
  !(lb.cue_pattern == CP_HEADING) && !(skip_meta && (lb.cue_pattern == CP_META))

/-- Number of content blocks of a labeled sequence. -/
def countContent (skip_meta : Bool) (l : List LabeledBlock) : Nat :=
  (l.filter (isContentBlock skip_meta)).length

/-- All block texts held by a loop state: sealed chunks plus the open
accumulator, in order. -/
def stateTexts (s : BCState) : List Str :=
  (s.chunks.map (fun c => c.texts)).flatten ++ s.current_texts

/-- The concatenation of the `meta.headings` lists of a chunk sequence. -/
def chunksHeadings (cs : List Chunk) : List Str :=
  (cs.map (fun c => c.headings)).flatten

/-- Reference recursion for the heading texts that end up in some chunk's
`meta.headings`: `pending` are headings collected but not yet anchored by a
content block; a content block anchors the pending headings (they will be
sealed with its chunk), while pending headings never followed by a content
block are lost. -/
def keptHeadings (skip_meta : Bool) : List Str → List LabeledBlock → List Str
  | _, [] => []
  | pending, lb :: rest =>
    if skip_meta ∧ lb.cue_pattern = CP_META then keptHeadings skip_meta pending rest
    else if lb.cue_pattern = CP_HEADING then
      keptHeadings skip_meta (pending ++ [lb.text]) rest
    else pending ++ keptHeadings skip_meta [] rest

/-- The eleven cue patterns the classifier can produce. -/
def ALL_CUES : List Str :=
  [CP_HEADING, CP_IMPERATIVE, CP_EVALUATIVE, CP_DEFINITION, CP_CAUSE_EFFECT,
   CP_EXAMPLE, CP_NARRATIVE, CP_FACT, CP_INTRO, CP_GLOSSARY, CP_META]

/-- Concrete labeled block constructor used by the example inputs. -/
def mkLB (i t cue cat : String) : LabeledBlock :=
  { id := lit i, text := normalize_text (lit t), block_type := lit "paragraph",
    cue_pattern := lit cue, category := lit cat, meta := some [] }

/-- Concrete raw block constructor used by the example inputs. -/
def mkBlock (i t : String) : Block :=
  { id := lit i, text := lit t, block_type := lit "paragraph", meta := none }

/-- Input for the lock-stickiness scenario, produced by the labeler itself:
IMPERATIVE, then a FACT block whose text contains the imperative verb
"amati", then IMPERATIVE. -/
def exC1 : List LabeledBlock :=
  label_blocks
    [ mkBlock "b1" "Amati gambar berikut.",
      mkBlock "b2" "Teks itu berisi kata amati.",
      mkBlock "b3" "Tuliskan hasilnya." ]

/-- Continuation counterexample input, produced by the labeler: an EVALUASI
block without trailing punctuation followed by an IMPERATIVE continuation
fragment starting with a lowercase letter. -/
def exC2 : List LabeledBlock :=
  label_blocks
    [ mkBlock "e1" "Kerjakan latihan berikut bersama teman sebangku di kelas",
      mkBlock "i2" "tuliskan jawaban kalian di buku tugas." ]

/-- Heading-isolation counterexample input, produced by the labeler: two
consecutive heading blocks with no content block after them. -/
def exC4 : List LabeledBlock :=
  label_blocks
    [ mkBlock "h1" "Bab 1 Cahaya",
      mkBlock "h2" "Bab 2 Bunyi" ]

/-- Block-level input used to exercise heading isolation positively. -/
def exC4blocks : List Block :=
  [ { id := lit "w1", text := lit "Bab 1 Cahaya", block_type := lit "heading",
      meta := none },
    { id := lit "w2", text := lit "Cahaya adalah gelombang elektromagnetik.",
      block_type := lit "paragraph", meta := none } ]

/-- A labeled boilerplate block used for the skip-meta frame claim. -/
def exC5meta : LabeledBlock :=
  mkLB "m1" "ISBN 978-602-244-448-0" "BOOK_META" "META"

/-- Glossary counterexample input, produced by the labeler: an IMPERATIVE
block without trailing punctuation followed by a lowercase glossary block,
which the continuation heuristic captures into the INSTRUKSI run. -/
def exC6 : List LabeledBlock :=
  label_blocks
    [ mkBlock "g1" "Amati gambar hewan yang ada di halaman berikut",
      mkBlock "g2" "kosakata baru dan artinya" ]

/-- Input (produced by the labeler) where continuation repair forces
EVALUATIVE/EVALUASI on an IMPERATIVE block whose own cue locks INSTRUKSI, so
resolution overrides the category back to INSTRUKSI and a boundary opens. -/
def exC10 : List LabeledBlock :=
  label_blocks
    [ mkBlock "e1" "Jawablah pertanyaan nomor satu sampai lima pada buku",
      mkBlock "i2" "menggambar hewan itu di buku kalian." ]

/-- The single chunk produced by `build_chunks` on `label_blocks exC4blocks`. -/
def exC4chunk : Chunk :=
  { chunk_id := lit "CH0001"
    texts := [lit "Cahaya adalah gelombang elektromagnetik."]
    block_ids := [lit "w2"]
    cue_patterns := [CP_DEFINITION]
    categories := [lit "KONSEP"]
    headings := [lit "Bab 1 Cahaya"]
    blocks_meta := [] }

/-- The labeled heading block produced from the first block of `exC4blocks`. -/
def exC4hblock : LabeledBlock :=
  { id := lit "w1", text := lit "Bab 1 Cahaya", block_type := lit "heading",
    cue_pattern := CP_HEADING, category := lit "KONSEP", meta := some [] }

/-- A labeled EVALUASI opener without trailing punctuation. -/
def prevC2w : LabeledBlock :=
  mkLB "e1" "Kerjakan latihan soal berikut bersama teman sebangku"
    "EVALUATIVE_QUESTION" "EVALUASI"

/-- The loop state after processing `prevC2w` from the initial state. -/
def sC2w : BCState := step true initState prevC2w

/-- A labeled FACT continuation fragment. -/
def lbC2w : LabeledBlock :=
  mkLB "w2" "dan hasil pengamatan itu ditulis di buku catatan."
    "FACT_EXPLANATION" "KONSEP"

/-- A labeled IMPERATIVE block with terminal punctuation. -/
def prevC6w : LabeledBlock :=
  mkLB "k1" "Amati gambar berikut." "IMPERATIVE_TASK" "INSTRUKSI"

/-- The loop state after processing `prevC6w` from the initial state. -/
def sC6w : BCState := step true initState prevC6w

/-- A raw glossary block whose text starts (case-insensitively) with the
glossary-heading prefix. -/
def bC6w : Block :=
  { id := lit "g2", text := lit "Kosakata Baru tentang cahaya",
    block_type := lit "paragraph", meta := none }

/-- The labeled form of `bC6w`. -/
def lbC6w : LabeledBlock :=
  mkLB "g2" "Kosakata Baru tentang cahaya" "GLOSSARY_BOX" "KONSEP"

/-- A labeled IMPERATIVE block used to build a mid-run state. -/
def prevC5w : LabeledBlock :=
  mkLB "p1" "Perhatikan gambar berikut." "IMPERATIVE_TASK" "INSTRUKSI"

/-- The loop state after processing `prevC5w` from the initial state. -/
def sC5w : BCState := step true initState prevC5w

/-! ## Helper lemmas: the normalizer's stages and their fixed points -/

theorem noAdjSpTab_cons2 (a b : Char) (l : Str) :
    noAdjSpTab (a :: b :: l) = (!(isSpTab a && isSpTab b) && noAdjSpTab (b :: l)) := rfl

theorem noAdjSpTab_tail {a : Char} {l : Str} (h : noAdjSpTab (a :: l) = true) :
    noAdjSpTab l = true := by
  cases l with
  | nil => rfl
  | cons b l' => exact (Bool.and_eq_true .. ▸ (noAdjSpTab_cons2 a b l' ▸ h)).2

theorem noTripleNl_cons3 (a b c : Char) (l : Str) :
    noTripleNl (a :: b :: c :: l) =
      (!(isNl a && isNl b && isNl c) && noTripleNl (b :: c :: l)) := rfl

theorem noTripleNl_tail {a : Char} {l : Str} (h : noTripleNl (a :: l) = true) :
    noTripleNl l = true := by
  cases l with
  | nil => rfl
  | cons b l' =>
    cases l' with
    | nil => rfl
    | cons c l'' => exact (Bool.and_eq_true .. ▸ (noTripleNl_cons3 a b c l'' ▸ h)).2

theorem replaceNbsp_no_nbsp (l : Str) : ∀ c ∈ replaceNbsp l, c ≠ nbsp := by
  intro c hc
  simp only [replaceNbsp, List.mem_map] at hc
  obtain ⟨a, -, ha⟩ := hc
  subst ha
  by_cases h : a = nbsp
  · rw [if_pos h]; decide
  · rw [if_neg h]; exact h

theorem replaceNbsp_id {l : Str} (h : ∀ c ∈ l, c ≠ nbsp) : replaceNbsp l = l := by
  induction l with
  | nil => rfl
  | cons c cs ih =>
    have hc : c ≠ nbsp := h c (List.mem_cons_self c cs)
    have ih' := ih (fun x hx => h x (List.mem_cons_of_mem c hx))
    simp only [replaceNbsp, List.map_cons] at ih' ⊢
    simp [hc, ih']

theorem collapseSpaces_cons1 (c : Char) :
    collapseSpaces [c] = if isSpTab c then [' '] else [c] := rfl

theorem collapseSpaces_cons2 (c c2 : Char) (cs : Str) :
    collapseSpaces (c :: c2 :: cs) =
      if isSpTab c then
        (if isSpTab c2 then collapseSpaces (c2 :: cs)
         else ' ' :: collapseSpaces (c2 :: cs))
      else c :: collapseSpaces (c2 :: cs) := rfl

theorem collapseSpaces_mem (l : Str) : ∀ c ∈ collapseSpaces l, c = ' ' ∨ c ∈ l := by
  induction l with
  | nil => simp [collapseSpaces]
  | cons c cs ih =>
    intro x hx
    by_cases hc : isSpTab c = true
    · cases cs with
      | nil =>
        rw [collapseSpaces_cons1, if_pos hc] at hx
        simp only [List.mem_singleton] at hx
        exact Or.inl hx
      | cons c2 cs' =>
        by_cases hc2 : isSpTab c2 = true
        · rw [collapseSpaces_cons2, if_pos hc, if_pos hc2] at hx
          rcases ih x hx with h | h
          · exact Or.inl h
          · exact Or.inr (List.mem_cons_of_mem c h)
        · rw [collapseSpaces_cons2, if_pos hc, if_neg hc2] at hx
          rcases List.mem_cons.mp hx with h | h
          · exact Or.inl h
          · rcases ih x h with h' | h'
            · exact Or.inl h'
            · exact Or.inr (List.mem_cons_of_mem c h')
    · cases cs with
      | nil =>
        rw [collapseSpaces_cons1, if_neg hc] at hx
        simp only [List.mem_singleton] at hx
        exact Or.inr (hx ▸ List.mem_cons_self c [])
      | cons c2 cs' =>
        rw [collapseSpaces_cons2, if_neg hc] at hx
        rcases List.mem_cons.mp hx with h | h
        · exact Or.inr (h ▸ List.mem_cons_self c (c2 :: cs'))
        · rcases ih x h with h' | h'
          · exact Or.inl h'
          · exact Or.inr (List.mem_cons_of_mem c h')

theorem collapseSpaces_no_tab (l : Str) : ∀ c ∈ collapseSpaces l, c ≠ '\t' := by
  induction l with
  | nil => simp [collapseSpaces]
  | cons c cs ih =>
    intro x hx
    by_cases hc : isSpTab c = true
    · cases cs with
      | nil =>
        rw [collapseSpaces_cons1, if_pos hc] at hx
        simp only [List.mem_singleton] at hx
        simp [hx]
      | cons c2 cs' =>
        by_cases hc2 : isSpTab c2 = true
        · rw [collapseSpaces_cons2, if_pos hc, if_pos hc2] at hx
          exact ih x hx
        · rw [collapseSpaces_cons2, if_pos hc, if_neg hc2] at hx
          rcases List.mem_cons.mp hx with h | h
          · simp [h]
          · exact ih x h
    · cases cs with
      | nil =>
        rw [collapseSpaces_cons1, if_neg hc] at hx
        simp only [List.mem_singleton] at hx
        subst hx
        intro hbad
        exact hc (by simp [isSpTab, hbad])
      | cons c2 cs' =>
        rw [collapseSpaces_cons2, if_neg hc] at hx
        rcases List.mem_cons.mp hx with h | h
        · subst h
          intro hbad
          exact hc (by simp [isSpTab, hbad])
        · exact ih x h

theorem noAdjSpTab_cons_iff (a : Char) (l : Str) :
    noAdjSpTab (a :: l) = true ↔
      ((∀ b, l.head? = some b → (isSpTab a && isSpTab b) = false)
        ∧ noAdjSpTab l = true) := by
  cases l with
  | nil => simp [noAdjSpTab]
  | cons b l' =>
    rw [noAdjSpTab_cons2]
    constructor
    · intro h
      have h' := (Bool.and_eq_true _ _).mp h
      refine ⟨fun x hx => ?_, h'.2⟩
      simp only [List.head?_cons, Option.some.injEq] at hx
      subst hx
      exact Bool.not_eq_true' .. ▸ h'.1
    · rintro ⟨h1, h2⟩
      refine (Bool.and_eq_true _ _).mpr ⟨?_, h2⟩
      have := h1 b (by simp)
      simp [this]

theorem noTripleNl_cons_iff (a : Char) (l : Str) :
    noTripleNl (a :: l) = true ↔
      ((∀ b c r, l = b :: c :: r → (isNl a && isNl b && isNl c) = false)
        ∧ noTripleNl l = true) := by
  cases l with
  | nil => simp [noTripleNl]
  | cons b l' =>
    cases l' with
    | nil =>
      constructor
      · intro h
        exact ⟨fun x y r hx => by simp at hx, noTripleNl_tail h⟩
      · rintro ⟨-, h2⟩
        simp [noTripleNl, h2]
    | cons c l'' =>
      rw [noTripleNl_cons3]
      constructor
      · intro h
        have h' := (Bool.and_eq_true _ _).mp h
        refine ⟨fun x y r hx => ?_, h'.2⟩
        obtain ⟨hb, hc, -⟩ : x = b ∧ y = c ∧ r = l'' := by
          simpa using hx.symm
        subst hb; subst hc
        exact Bool.not_eq_true' .. ▸ h'.1
      · rintro ⟨h1, h2⟩
        refine (Bool.and_eq_true _ _).mpr ⟨?_, h2⟩
        have := h1 b c l'' rfl
        simp [this]

theorem collapseSpaces_noAdj (l : Str) : noAdjSpTab (collapseSpaces l) = true := by
  induction l with
  | nil => rfl
  | cons c cs ih =>
    by_cases hc : isSpTab c = true
    · cases cs with
      | nil => rw [collapseSpaces_cons1, if_pos hc]; rfl
      | cons c2 cs' =>
        by_cases hc2 : isSpTab c2 = true
        · rw [collapseSpaces_cons2, if_pos hc, if_pos hc2]; exact ih
        · rw [collapseSpaces_cons2, if_pos hc, if_neg hc2]
          rw [noAdjSpTab_cons_iff]
          refine ⟨fun b hb => ?_, ih⟩
          have hb' : b = c2 := by
            cases cs' with
            | nil =>
              rw [collapseSpaces_cons1, if_neg hc2] at hb
              exact (by simpa using hb : c2 = b).symm
            | cons c3 cs'' =>
              rw [collapseSpaces_cons2, if_neg hc2] at hb
              exact (by simpa using hb : c2 = b).symm
          subst hb'
          simp [Bool.not_eq_true] at hc2
          simp [hc2]
    · cases cs with
      | nil => rw [collapseSpaces_cons1, if_neg hc]; rfl
      | cons c2 cs' =>
        rw [collapseSpaces_cons2, if_neg hc]
        rw [noAdjSpTab_cons_iff]
        refine ⟨fun b hb => ?_, ih⟩
        simp [Bool.not_eq_true] at hc
        simp [hc]

theorem collapseSpaces_id (l : Str) (ht : ∀ c ∈ l, c ≠ '\t')
    (ha : noAdjSpTab l = true) : collapseSpaces l = l := by
  induction l with
  | nil => rfl
  | cons c cs ih =>
    by_cases hc : isSpTab c = true
    · have hcsp : c = ' ' := by
        have := ht c (List.mem_cons_self c cs)
        rcases (by simpa [isSpTab] using hc : c = ' ' ∨ c = '\t') with h | h
        · exact h
        · exact absurd h this
      cases cs with
      | nil => rw [collapseSpaces_cons1, if_pos hc, hcsp]
      | cons c2 cs' =>
        have hw := ((noAdjSpTab_cons_iff c (c2 :: cs')).mp ha).1 c2 (by simp)
        have hc2 : isSpTab c2 = false := by
          rcases Bool.and_eq_false_iff.mp hw with h | h
          · rw [hc] at h; cases h
          · exact h
        rw [collapseSpaces_cons2, if_pos hc, if_neg (by simp [hc2])]
        rw [ih (fun x hx => ht x (List.mem_cons_of_mem c hx)) (noAdjSpTab_tail ha)]
        rw [hcsp]
    · cases cs with
      | nil => rw [collapseSpaces_cons1, if_neg hc]
      | cons c2 cs' =>
        rw [collapseSpaces_cons2, if_neg hc]
        rw [ih (fun x hx => ht x (List.mem_cons_of_mem c hx)) (noAdjSpTab_tail ha)]

theorem collapseNewlines_cons1 (c : Char) :
    collapseNewlines [c] = if c = '\n' then ['\n'] else [c] := rfl

theorem collapseNewlines_cons2 (c c2 : Char) :
    collapseNewlines [c, c2] =
      if c = '\n' then '\n' :: collapseNewlines [c2]
      else c :: collapseNewlines [c2] := rfl

theorem collapseNewlines_cons3 (c c2 c3 : Char) (cs : Str) :
    collapseNewlines (c :: c2 :: c3 :: cs) =
      if c = '\n' then
        (if c2 = '\n' && c3 = '\n' then collapseNewlines (c2 :: c3 :: cs)
         else '\n' :: collapseNewlines (c2 :: c3 :: cs))
      else c :: collapseNewlines (c2 :: c3 :: cs) := rfl

theorem collapseNewlines_headq (l : Str) :
    (collapseNewlines l).head? = l.head? := by
  induction l with
  | nil => rfl
  | cons c cs ih =>
    by_cases hc : c = '\n'
    · cases cs with
      | nil => rw [collapseNewlines_cons1, if_pos hc, hc]
      | cons c2 cs' =>
        cases cs' with
        | nil => rw [collapseNewlines_cons2, if_pos hc, hc]; rfl
        | cons c3 cs'' =>
          by_cases h23 : c2 = '\n' ∧ c3 = '\n'
          · rw [collapseNewlines_cons3, if_pos hc,
              if_pos (by simp [h23.1, h23.2])]
            rw [ih]
            simp [h23.1, hc]
          · rw [collapseNewlines_cons3, if_pos hc,
              if_neg (by simpa [Decidable.not_and_iff_or_not] using h23)]
            rw [hc]; rfl
    · cases cs with
      | nil => rw [collapseNewlines_cons1, if_neg hc]
      | cons c2 cs' =>
        cases cs' with
        | nil => rw [collapseNewlines_cons2, if_neg hc]; rfl
        | cons c3 cs'' => rw [collapseNewlines_cons3, if_neg hc]; rfl

theorem collapseNewlines_mem (l : Str) :
    ∀ c ∈ collapseNewlines l, c = '\n' ∨ c ∈ l := by
  induction l with
  | nil => simp [collapseNewlines]
  | cons c cs ih =>
    intro x hx
    have step : x ∈ collapseNewlines cs → x = '\n' ∨ x ∈ c :: cs := by
      intro h
      rcases ih x h with h' | h'
      · exact Or.inl h'
      · exact Or.inr (List.mem_cons_of_mem c h')
    by_cases hc : c = '\n'
    · cases cs with
      | nil =>
        rw [collapseNewlines_cons1, if_pos hc] at hx
        simp only [List.mem_singleton] at hx
        exact Or.inl hx
      | cons c2 cs' =>
        cases cs' with
        | nil =>
          rw [collapseNewlines_cons2, if_pos hc] at hx
          rcases List.mem_cons.mp hx with h | h
          · exact Or.inl h
          · exact step h
        | cons c3 cs'' =>
          by_cases h23 : c2 = '\n' ∧ c3 = '\n'
          · rw [collapseNewlines_cons3, if_pos hc,
              if_pos (by simp [h23.1, h23.2])] at hx
            exact step hx
          · rw [collapseNewlines_cons3, if_pos hc,
              if_neg (by simpa [Decidable.not_and_iff_or_not] using h23)] at hx
            rcases List.mem_cons.mp hx with h | h
            · exact Or.inl h
            · exact step h
    · cases cs with
      | nil =>
        rw [collapseNewlines_cons1, if_neg hc] at hx
        simp only [List.mem_singleton] at hx
        exact Or.inr (hx ▸ List.mem_cons_self c [])
      | cons c2 cs' =>
        have hx' : x ∈ c :: collapseNewlines (c2 :: cs') := by
          cases cs' with
          | nil => rw [collapseNewlines_cons2, if_neg hc] at hx; exact hx
          | cons c3 cs'' => rw [collapseNewlines_cons3, if_neg hc] at hx; exact hx
        rcases List.mem_cons.mp hx' with h | h
        · exact Or.inr (h ▸ List.mem_cons_self c (c2 :: cs'))
        · exact step h

theorem collapseNewlines_noAdj (l : Str) (h : noAdjSpTab l = true) :
    noAdjSpTab (collapseNewlines l) = true := by
  induction l with
  | nil => rfl
  | cons c cs ih =>
    have ih' := ih (noAdjSpTab_tail h)
    have hwin : ∀ b, (collapseNewlines cs).head? = some b →
        (isSpTab c && isSpTab b) = false := by
      intro b hb
      rw [collapseNewlines_headq] at hb
      exact ((noAdjSpTab_cons_iff c cs).mp h).1 b hb
    have keep : noAdjSpTab (c :: collapseNewlines cs) = true :=
      (noAdjSpTab_cons_iff c (collapseNewlines cs)).mpr ⟨hwin, ih'⟩
    have keepNl : noAdjSpTab ('\n' :: collapseNewlines cs) = true := by
      refine (noAdjSpTab_cons_iff _ _).mpr ⟨fun b hb => ?_, ih'⟩
      simp [isSpTab]
    by_cases hc : c = '\n'
    · cases cs with
      | nil => rw [collapseNewlines_cons1, if_pos hc]; rfl
      | cons c2 cs' =>
        cases cs' with
        | nil => rw [collapseNewlines_cons2, if_pos hc]; exact keepNl
        | cons c3 cs'' =>
          by_cases h23 : c2 = '\n' ∧ c3 = '\n'
          · rw [collapseNewlines_cons3, if_pos hc, if_pos (by simp [h23.1, h23.2])]
            exact ih'
          · rw [collapseNewlines_cons3, if_pos hc,
              if_neg (by simpa [Decidable.not_and_iff_or_not] using h23)]
            exact keepNl
    · cases cs with
      | nil => rw [collapseNewlines_cons1, if_neg hc]; rfl
      | cons c2 cs' =>
        cases cs' with
        | nil => rw [collapseNewlines_cons2, if_neg hc]; exact keep
        | cons c3 cs'' => rw [collapseNewlines_cons3, if_neg hc]; exact keep

theorem noTripleNl_pair (a b : Char) : noTripleNl [a, b] = true := by
  simp [noTripleNl]

theorem collapseNewlines_noTriple (l : Str) :
    noTripleNl (collapseNewlines l) = true := by
  induction l with
  | nil => rfl
  | cons c cs ih =>
    by_cases hc : c = '\n'
    · cases cs with
      | nil => rw [collapseNewlines_cons1, if_pos hc]; rfl
      | cons c2 cs' =>
        cases cs' with
        | nil =>
          rw [collapseNewlines_cons2, if_pos hc]
          rw [collapseNewlines_cons1]
          by_cases h2 : c2 = '\n'
          · rw [if_pos h2]; exact noTripleNl_pair _ _
          · rw [if_neg h2]; exact noTripleNl_pair _ _
        | cons c3 cs'' =>
          by_cases h23 : c2 = '\n' ∧ c3 = '\n'
          · rw [collapseNewlines_cons3, if_pos hc, if_pos (by simp [h23.1, h23.2])]
            exact ih
          · rw [collapseNewlines_cons3, if_pos hc,
              if_neg (by simpa [Decidable.not_and_iff_or_not] using h23)]
            refine (noTripleNl_cons_iff _ _).mpr ⟨fun b d r hbd => ?_, ih⟩
            have hb : b = c2 := by
              have := collapseNewlines_headq (c2 :: c3 :: cs'')
              rw [hbd] at this
              simpa using this
            subst hb
            by_cases hb2 : b = '\n'
            · have hc3 : ¬c3 = '\n' := fun hh => h23 ⟨hb2, hh⟩
              have hd : d = c3 := by
                have hexp : collapseNewlines (b :: c3 :: cs'') =
                    '\n' :: collapseNewlines (c3 :: cs'') := by
                  cases cs'' with
                  | nil =>
                    rw [collapseNewlines_cons2, if_pos hb2]
                  | cons c4 cs''' =>
                    rw [collapseNewlines_cons3, if_pos hb2,
                      if_neg (by simp [hc3])]
                rw [hexp] at hbd
                have htl : collapseNewlines (c3 :: cs'') = d :: r :=
                  (by simpa using hbd :
                    '\n' = b ∧ collapseNewlines (c3 :: cs'') = d :: r).2
                have := collapseNewlines_headq (c3 :: cs'')
                rw [htl] at this
                simpa using this
              subst hd
              simp [isNl, hc3]
            · simp [isNl, hb2]
    · cases cs with
      | nil =>
        rw [collapseNewlines_cons1, if_neg hc]; rfl
      | cons c2 cs' =>
        have hkeep : collapseNewlines (c :: c2 :: cs') =
            c :: collapseNewlines (c2 :: cs') := by
          cases cs' with
          | nil => rw [collapseNewlines_cons2, if_neg hc]
          | cons c3 cs'' => rw [collapseNewlines_cons3, if_neg hc]
        rw [hkeep]
        exact (noTripleNl_cons_iff _ _).mpr ⟨fun b d r hbd => by simp [isNl, hc], ih⟩

theorem collapseNewlines_id (l : Str) (h : noTripleNl l = true) :
    collapseNewlines l = l := by
  induction l with
  | nil => rfl
  | cons c cs ih =>
    have ih' := ih (noTripleNl_tail h)
    by_cases hc : c = '\n'
    · cases cs with
      | nil => rw [collapseNewlines_cons1, if_pos hc, hc]
      | cons c2 cs' =>
        cases cs' with
        | nil => rw [collapseNewlines_cons2, if_pos hc, ih', hc]
        | cons c3 cs'' =>
          by_cases h23 : c2 = '\n' ∧ c3 = '\n'
          · exfalso
            have := ((noTripleNl_cons_iff c (c2 :: c3 :: cs'')).mp h).1 c2 c3 cs'' rfl
            rw [hc, h23.1, h23.2] at this
            simp [isNl] at this
          · rw [collapseNewlines_cons3, if_pos hc,
              if_neg (by simpa [Decidable.not_and_iff_or_not] using h23), ih', hc]
    · cases cs with
      | nil => rw [collapseNewlines_cons1, if_neg hc]
      | cons c2 cs' =>
        cases cs' with
        | nil => rw [collapseNewlines_cons2, if_neg hc, ih']
        | cons c3 cs'' => rw [collapseNewlines_cons3, if_neg hc, ih']

theorem dropTrailingWs_cons_nil {cs : Str} (c : Char) (h : dropTrailingWs cs = []) :
    dropTrailingWs (c :: cs) = if isPyWs c then [] else [c] := by
  show (match dropTrailingWs cs with
        | [] => if isPyWs c then [] else [c]
        | r => c :: r) = _
  rw [h]

theorem dropTrailingWs_cons {cs : Str} (c d : Char) {r : Str}
    (h : dropTrailingWs cs = d :: r) :
    dropTrailingWs (c :: cs) = c :: d :: r := by
  show (match dropTrailingWs cs with
        | [] => if isPyWs c then [] else [c]
        | r => c :: r) = _
  rw [h]

theorem dropTrailingWs_isPrefix (l : Str) : dropTrailingWs l <+: l := by
  induction l with
  | nil => exact ⟨[], rfl⟩
  | cons c cs ih =>
    cases h : dropTrailingWs cs with
    | nil =>
      rw [dropTrailingWs_cons_nil c h]
      by_cases hc : isPyWs c = true
      · rw [if_pos hc]; exact ⟨c :: cs, rfl⟩
      · rw [if_neg hc]; exact ⟨cs, rfl⟩
    | cons d r =>
      rw [dropTrailingWs_cons c d h]
      rw [h] at ih
      obtain ⟨t, ht⟩ := ih
      exact ⟨t, by rw [List.cons_append, ht]⟩

theorem dropTrailingWs_last (l : Str) :
    ∀ c, (dropTrailingWs l).getLast? = some c → isPyWs c = false := by
  induction l with
  | nil => intro c hc; cases hc
  | cons c cs ih =>
    intro x hx
    cases h : dropTrailingWs cs with
    | nil =>
      rw [dropTrailingWs_cons_nil c h] at hx
      by_cases hc : isPyWs c = true
      · rw [if_pos hc] at hx; cases hx
      · rw [if_neg hc] at hx
        simp only [List.getLast?_singleton, Option.some.injEq] at hx
        subst hx
        exact Bool.not_eq_true _ ▸ hc
    | cons d r =>
      rw [dropTrailingWs_cons c d h] at hx
      rw [List.getLast?_cons_cons] at hx
      rw [← h] at hx
      exact ih x hx

theorem dropTrailingWs_id (l : Str)
    (h : ∀ c, l.getLast? = some c → isPyWs c = false) : dropTrailingWs l = l := by
  induction l with
  | nil => rfl
  | cons c cs ih =>
    cases cs with
    | nil =>
      have hc := h c (by simp)
      rw [@dropTrailingWs_cons_nil [] c rfl, if_neg (by simp [hc])]
    | cons c2 cs' =>
      have ih' : dropTrailingWs (c2 :: cs') = c2 :: cs' :=
        ih (fun x hx => h x (by rw [List.getLast?_cons_cons]; exact hx))
      rw [dropTrailingWs_cons c c2 ih']

theorem dropWhile_head_not (p : Char → Bool) (l : Str) :
    ∀ c, (l.dropWhile p).head? = some c → p c = false := by
  induction l with
  | nil => intro c hc; cases hc
  | cons c cs ih =>
    intro x hx
    rw [List.dropWhile_cons] at hx
    by_cases hc : p c = true
    · rw [if_pos hc] at hx; exact ih x hx
    · rw [if_neg hc] at hx
      simp only [List.head?_cons, Option.some.injEq] at hx
      subst hx
      exact Bool.not_eq_true _ ▸ hc

theorem dropWhile_id_of_head (p : Char → Bool) (l : Str)
    (h : ∀ c, l.head? = some c → p c = false) : l.dropWhile p = l := by
  cases l with
  | nil => rfl
  | cons c cs =>
    rw [List.dropWhile_cons, if_neg (by simp [h c (by simp)])]

theorem noAdjSpTab_append_left (l₁ l₂ : Str)
    (h : noAdjSpTab (l₁ ++ l₂) = true) : noAdjSpTab l₁ = true := by
  induction l₁ with
  | nil => rfl
  | cons a l' ih =>
    rw [List.cons_append] at h
    have h' := (noAdjSpTab_cons_iff _ _).mp h
    refine (noAdjSpTab_cons_iff _ _).mpr ⟨fun b hb => ?_, ih h'.2⟩
    apply h'.1
    cases l' with
    | nil => cases hb
    | cons x xs => simpa using hb

theorem noAdjSpTab_append_right (l₁ l₂ : Str)
    (h : noAdjSpTab (l₁ ++ l₂) = true) : noAdjSpTab l₂ = true := by
  induction l₁ with
  | nil => exact h
  | cons a l' ih =>
    rw [List.cons_append] at h
    exact ih (noAdjSpTab_tail h)

theorem noTripleNl_append_left (l₁ l₂ : Str)
    (h : noTripleNl (l₁ ++ l₂) = true) : noTripleNl l₁ = true := by
  induction l₁ with
  | nil => rfl
  | cons a l' ih =>
    rw [List.cons_append] at h
    have h' := (noTripleNl_cons_iff _ _).mp h
    refine (noTripleNl_cons_iff _ _).mpr ⟨fun b c r hb => ?_, ih h'.2⟩
    exact h'.1 b c (r ++ l₂) (by rw [hb, List.cons_append, List.cons_append])

theorem noTripleNl_append_right (l₁ l₂ : Str)
    (h : noTripleNl (l₁ ++ l₂) = true) : noTripleNl l₂ = true := by
  induction l₁ with
  | nil => exact h
  | cons a l' ih =>
    rw [List.cons_append] at h
    exact ih (noTripleNl_tail h)

theorem pyStrip_mem (l : Str) : ∀ c ∈ pyStrip l, c ∈ l := by
  intro c hc
  have h1 : c ∈ l.dropWhile isPyWs :=
    (dropTrailingWs_isPrefix (l.dropWhile isPyWs)).sublist.mem hc
  exact (List.dropWhile_sublist _).mem h1

theorem pyStrip_headq (l : Str) :
    ∀ c, (pyStrip l).head? = some c → isPyWs c = false := by
  intro c hc
  rw [pyStrip] at hc
  obtain ⟨t, ht⟩ := dropTrailingWs_isPrefix (l.dropWhile isPyWs)
  apply dropWhile_head_not isPyWs l c
  rw [← ht]
  cases hdt : dropTrailingWs (l.dropWhile isPyWs) with
  | nil => rw [hdt] at hc; cases hc
  | cons d r =>
    rw [hdt] at hc
    simp only [List.head?_cons, Option.some.injEq] at hc
    subst hc
    simp

theorem pyStrip_lastq (l : Str) :
    ∀ c, (pyStrip l).getLast? = some c → isPyWs c = false :=
  fun c hc => dropTrailingWs_last _ c hc

theorem pyStrip_id (l : Str)
    (hh : ∀ c, l.head? = some c → isPyWs c = false)
    (hl : ∀ c, l.getLast? = some c → isPyWs c = false) : pyStrip l = l := by
  rw [pyStrip, dropWhile_id_of_head isPyWs l hh, dropTrailingWs_id l hl]

theorem pyStrip_noAdj (l : Str) (h : noAdjSpTab l = true) :
    noAdjSpTab (pyStrip l) = true := by
  obtain ⟨pre, hpre⟩ : ∃ pre, pre ++ l.dropWhile isPyWs = l :=
    (List.dropWhile_suffix isPyWs : l.dropWhile isPyWs <:+ l)
  have h1 : noAdjSpTab (l.dropWhile isPyWs) = true := by
    rw [← hpre] at h
    exact noAdjSpTab_append_right pre _ h
  obtain ⟨t, ht⟩ := dropTrailingWs_isPrefix (l.dropWhile isPyWs)
  exact noAdjSpTab_append_left _ t (by rw [pyStrip, ht]; exact h1)

theorem pyStrip_noTriple (l : Str) (h : noTripleNl l = true) :
    noTripleNl (pyStrip l) = true := by
  obtain ⟨pre, hpre⟩ : ∃ pre, pre ++ l.dropWhile isPyWs = l :=
    (List.dropWhile_suffix isPyWs : l.dropWhile isPyWs <:+ l)
  have h1 : noTripleNl (l.dropWhile isPyWs) = true := by
    rw [← hpre] at h
    exact noTripleNl_append_right pre _ h
  obtain ⟨t, ht⟩ := dropTrailingWs_isPrefix (l.dropWhile isPyWs)
  exact noTripleNl_append_left _ t (by rw [pyStrip, ht]; exact h1)

theorem normalize_no_nbsp (l : Str) : ∀ c ∈ normalize_text l, c ≠ nbsp := by
  intro c hc
  have h1 := pyStrip_mem _ c hc
  rcases collapseNewlines_mem _ c h1 with h | h
  · subst h; decide
  · rcases collapseSpaces_mem _ c h with h' | h'
    · subst h'; decide
    · exact replaceNbsp_no_nbsp l c h'

theorem normalize_no_tab (l : Str) : ∀ c ∈ normalize_text l, c ≠ '\t' := by
  intro c hc
  have h1 := pyStrip_mem _ c hc
  rcases collapseNewlines_mem _ c h1 with h | h
  · subst h; decide
  · exact collapseSpaces_no_tab _ c h

theorem normalize_noAdj (l : Str) : noAdjSpTab (normalize_text l) = true :=
  pyStrip_noAdj _ (collapseNewlines_noAdj _ (collapseSpaces_noAdj _))

theorem normalize_noTriple (l : Str) : noTripleNl (normalize_text l) = true :=
  pyStrip_noTriple _ (collapseNewlines_noTriple _)

theorem normalize_headq (l : Str) :
    ∀ c, (normalize_text l).head? = some c → isPyWs c = false :=
  fun c hc => pyStrip_headq _ c hc

theorem normalize_lastq (l : Str) :
    ∀ c, (normalize_text l).getLast? = some c → isPyWs c = false :=
  fun c hc => pyStrip_lastq _ c hc

/-- The normalizer is idempotent (shared helper used by several claims). -/
theorem normalize_text_idem (l : Str) :
    normalize_text (normalize_text l) = normalize_text l := by
  have h1 : replaceNbsp (normalize_text l) = normalize_text l :=
    replaceNbsp_id (normalize_no_nbsp l)
  have h2 : collapseSpaces (normalize_text l) = normalize_text l :=
    collapseSpaces_id _ (normalize_no_tab l) (normalize_noAdj l)
  have h3 : collapseNewlines (normalize_text l) = normalize_text l :=
    collapseNewlines_id _ (normalize_noTriple l)
  calc normalize_text (normalize_text l)
      = pyStrip (collapseNewlines (collapseSpaces (replaceNbsp (normalize_text l)))) := rfl
    _ = normalize_text l := by
        rw [h1, h2, h3]
        exact pyStrip_id _ (normalize_headq l) (normalize_lastq l)

/-! ## Helper lemmas: the chunk-builder loop -/

theorem continuationForce_cases (last_eff : Option LabeledBlock) (last_text : Str)
    (lb : LabeledBlock) :
    continuationForce last_eff last_text lb = (CP_IMPERATIVE, lit "INSTRUKSI")
    ∨ continuationForce last_eff last_text lb = (CP_EVALUATIVE, lit "EVALUASI")
    ∨ continuationForce last_eff last_text lb = (lb.cue_pattern, lb.category) := by
  rcases last_eff with - | prev
  · exact Or.inr (Or.inr rfl)
  · rw [continuationForce]
    by_cases h1 : looks_like_continuation last_text lb.text = true
    · rw [if_pos h1]
      by_cases h2 : prev.category = lit "INSTRUKSI"
      · rw [if_pos h2]; exact Or.inl rfl
      · rw [if_neg h2]
        by_cases h3 : prev.category = lit "EVALUASI"
        · rw [if_pos h3]; exact Or.inr (Or.inl rfl)
        · rw [if_neg h3]; exact Or.inr (Or.inr rfl)
    · rw [if_neg h1]; exact Or.inr (Or.inr rfl)

theorem updateLock_content {cue : Str} (a : Option Str) (h : cue ∈ CONTENT_CUES) :
    updateLock a cue = none := by
  have hg : ¬cue = CP_GLOSSARY := by
    intro he; subst he; revert h; decide
  have hi : ¬cue = CP_IMPERATIVE := by
    intro he; subst he; revert h; decide
  have hev : ¬cue = CP_EVALUATIVE := by
    intro he; subst he; revert h; decide
  simp only [updateLock, if_neg hg, if_neg hi, if_neg hev, if_pos h]

/-- The two lock-driven coercion branches never fire: after the lock update
of the same iteration, a (possibly continuation-forced) cue in the guarded
sets is incompatible with the guarded lock value. -/
theorem coerceLock_on_updated_lock (a : Option Str) (last_eff : Option LabeledBlock)
    (last_text : Str) (lb : LabeledBlock) :
    coerceLock (updateLock a lb.cue_pattern) lb
        (continuationForce last_eff last_text lb)
      = continuationForce last_eff last_text lb := by
  have main : ∀ fc : Str × Str,
      (fc = (CP_IMPERATIVE, lit "INSTRUKSI") ∨ fc = (CP_EVALUATIVE, lit "EVALUASI")
        ∨ fc = (lb.cue_pattern, lb.category)) →
      coerceLock (updateLock a lb.cue_pattern) lb fc = fc := by
    rintro fc hfc
    have h1 : coerceLock1 (updateLock a lb.cue_pattern) lb fc = fc := by
      rw [coerceLock1, if_neg]
      rintro ⟨hact, hmem, -⟩
      rcases hfc with h | h | h
      · rw [h] at hmem; revert hmem; decide
      · rw [h] at hmem; revert hmem; decide
      · rw [h] at hmem
        simp only [List.mem_cons, List.not_mem_nil, or_false] at hmem
        have hmem' : lb.cue_pattern ∈ CONTENT_CUES := by
          rcases hmem with h' | h' | h' <;> rw [h'] <;> decide
        rw [updateLock_content a hmem'] at hact
        cases hact
    have h2 : coerceLock2 (updateLock a lb.cue_pattern) lb fc = fc := by
      rw [coerceLock2, if_neg]
      rintro ⟨hact, hmem, -⟩
      rcases hfc with h | h | h
      · rw [h] at hmem; revert hmem; decide
      · rw [h] at hmem; revert hmem; decide
      · rw [h] at hmem
        simp only [List.mem_cons, List.not_mem_nil, or_false] at hmem
        have hmem' : lb.cue_pattern ∈ CONTENT_CUES := by
          rcases hmem with h' | h' <;> rw [h'] <;> decide
        rw [updateLock_content a hmem'] at hact
        cases hact
    rw [coerceLock, h1, h2]
  exact main _ (continuationForce_cases last_eff last_text lb)

theorem flush_id {s : BCState} (h : s.current_texts = []) : flush s = s := by
  rw [flush, if_pos h]

theorem flush_measure (s : BCState) :
    totalBlockIds (flush s).chunks + (flush s).current_ids.length
      = totalBlockIds s.chunks + s.current_ids.length := by
  by_cases h : s.current_texts = []
  · rw [flush_id h]
  · rw [flush, if_neg h]
    simp [totalBlockIds, mkChunk]

theorem flush_stateTexts (s : BCState) : stateTexts (flush s) = stateTexts s := by
  by_cases h : s.current_texts = []
  · rw [flush_id h]
  · rw [flush, if_neg h]
    simp [stateTexts, mkChunk, h]

theorem effectiveLB_text (a : Option Str) (le : Option LabeledBlock) (lt : Str)
    (lb : LabeledBlock) : (effectiveLB a le lt lb).text = lb.text := rfl

theorem effectiveLB_id (a : Option Str) (le : Option LabeledBlock) (lt : Str)
    (lb : LabeledBlock) : (effectiveLB a le lt lb).id = lb.id := rfl

theorem step_meta_eq {skip : Bool} (s : BCState) {lb : LabeledBlock}
    (hs : skip = true) (h : lb.cue_pattern = CP_META) : step skip s lb = s := by
  rw [step, if_pos ⟨hs, h⟩]

theorem step_heading_eq {skip : Bool} (s : BCState) {lb : LabeledBlock}
    (h : lb.cue_pattern = CP_HEADING) : step skip s lb = stepHeading s lb := by
  rw [step, if_neg, if_pos h]
  rintro ⟨-, hm⟩
  exact absurd (h.symm.trans hm) (by decide)

theorem step_content_eq {skip : Bool} (s : BCState) {lb : LabeledBlock}
    (h1 : ¬(skip = true ∧ lb.cue_pattern = CP_META))
    (h2 : ¬lb.cue_pattern = CP_HEADING) : step skip s lb = stepContent s lb := by
  rw [step, if_neg h1, if_neg h2]

theorem stepContent_measure (s : BCState) (lb : LabeledBlock) :
    totalBlockIds (stepContent s lb).chunks + (stepContent s lb).current_ids.length
      = totalBlockIds s.chunks + s.current_ids.length + 1 := by
  simp only [stepContent]
  split
  · next h => simp [flush, totalBlockIds, mkChunk, h.2]
  · simp [totalBlockIds]; omega

theorem stepContent_stateTexts (s : BCState) (lb : LabeledBlock) :
    stateTexts (stepContent s lb) = stateTexts s ++ [lb.text] := by
  simp only [stepContent]
  split
  · next h => simp [flush, stateTexts, mkChunk, h.2, effectiveLB]
  · simp [stateTexts, effectiveLB]

theorem stepContent_lenInv (s : BCState) (lb : LabeledBlock)
    (h : s.current_texts.length = s.current_ids.length) :
    (stepContent s lb).current_texts.length
      = (stepContent s lb).current_ids.length := by
  simp only [stepContent]
  split
  · next hc => simp [flush, hc.2]
  · simp [h]

theorem stepContent_texts_ne (s : BCState) (lb : LabeledBlock) :
    (stepContent s lb).current_texts ≠ [] := by
  simp only [stepContent]
  split
  · next h => simp [flush, h.2]
  · simp

theorem stepContent_chunks_headings (s : BCState) (lb : LabeledBlock) :
    ((stepContent s lb).chunks = s.chunks
      ∧ (stepContent s lb).current_headings = s.current_headings)
    ∨ ((stepContent s lb).chunks = s.chunks ++ [mkChunk s]
      ∧ (stepContent s lb).current_headings = []
      ∧ s.current_texts ≠ []) := by
  simp only [stepContent]
  split
  · next h =>
    right
    refine ⟨?_, ?_, h.2⟩ <;> simp [flush, mkChunk, h.2]
  · left; exact ⟨rfl, rfl⟩

theorem stepHeading_measure (s : BCState) (lb : LabeledBlock) :
    totalBlockIds (stepHeading s lb).chunks + (stepHeading s lb).current_ids.length
      = totalBlockIds s.chunks + s.current_ids.length := by
  simp only [stepHeading]
  have := flush_measure s
  simpa using this

theorem stepHeading_lenInv (s : BCState) (lb : LabeledBlock)
    (h : s.current_texts.length = s.current_ids.length) :
    (stepHeading s lb).current_texts.length
      = (stepHeading s lb).current_ids.length := by
  simp only [stepHeading, flush]
  split
  · simpa using h
  · simp

theorem stepHeading_stateTexts (s : BCState) (lb : LabeledBlock) :
    stateTexts (stepHeading s lb) = stateTexts s :=
  flush_stateTexts s

theorem isContentBlock_true {skip : Bool} {lb : LabeledBlock}
    (h1 : ¬(skip = true ∧ lb.cue_pattern = CP_META))
    (h2 : ¬lb.cue_pattern = CP_HEADING) : isContentBlock skip lb = true := by
  cases hsk : skip with
  | false => simp [isContentBlock, h2, hsk]
  | true =>
    have hm : ¬lb.cue_pattern = CP_META := fun hm => h1 ⟨hsk, hm⟩
    simp [isContentBlock, h2, hsk, hm]

theorem step_measure (skip : Bool) (s : BCState) (lb : LabeledBlock) :
    totalBlockIds (step skip s lb).chunks + (step skip s lb).current_ids.length
      = totalBlockIds s.chunks + s.current_ids.length
        + (if isContentBlock skip lb then 1 else 0) := by
  by_cases h1 : skip = true ∧ lb.cue_pattern = CP_META
  · rw [step_meta_eq s h1.1 h1.2]
    simp [isContentBlock, h1.1, h1.2]
  · by_cases h2 : lb.cue_pattern = CP_HEADING
    · rw [step_heading_eq s h2]
      have hcontent : isContentBlock skip lb = false := by simp [isContentBlock, h2]
      rw [hcontent, stepHeading_measure]
      simp
    · rw [step_content_eq s h1 h2, isContentBlock_true h1 h2, stepContent_measure]
      simp

theorem step_lenInv (skip : Bool) (s : BCState) (lb : LabeledBlock)
    (h : s.current_texts.length = s.current_ids.length) :
    (step skip s lb).current_texts.length = (step skip s lb).current_ids.length := by
  by_cases h1 : skip = true ∧ lb.cue_pattern = CP_META
  · rw [step_meta_eq s h1.1 h1.2]; exact h
  · by_cases h2 : lb.cue_pattern = CP_HEADING
    · rw [step_heading_eq s h2]; exact stepHeading_lenInv s lb h
    · rw [step_content_eq s h1 h2]; exact stepContent_lenInv s lb h

theorem foldl_measure (skip : Bool) (l : List LabeledBlock) : ∀ s : BCState,
    totalBlockIds (l.foldl (step skip) s).chunks
        + (l.foldl (step skip) s).current_ids.length
      = totalBlockIds s.chunks + s.current_ids.length + countContent skip l := by
  induction l with
  | nil => intro s; simp [countContent]
  | cons lb l' ih =>
    intro s
    rw [List.foldl_cons, ih (step skip s lb), step_measure]
    have hcc : countContent skip (lb :: l')
        = (if isContentBlock skip lb then 1 else 0) + countContent skip l' := by
      by_cases hp : isContentBlock skip lb = true
      · simp [countContent, List.filter_cons, hp, Nat.add_comm]
      · simp [countContent, List.filter_cons, Bool.not_eq_true .. ▸ hp]
    rw [hcc]
    omega

theorem foldl_lenInv (skip : Bool) (l : List LabeledBlock) : ∀ s : BCState,
    s.current_texts.length = s.current_ids.length →
    (l.foldl (step skip) s).current_texts.length
      = (l.foldl (step skip) s).current_ids.length := by
  induction l with
  | nil => intro s h; exact h
  | cons lb l' ih =>
    intro s h
    rw [List.foldl_cons]
    exact ih _ (step_lenInv skip s lb h)

theorem flush_final_ids (s : BCState)
    (hinv : s.current_texts.length = s.current_ids.length) :
    (flush s).current_ids = [] := by
  by_cases h : s.current_texts = []
  · rw [flush_id h]
    rw [h] at hinv
    simpa using (List.length_eq_zero.mp hinv.symm)
  · rw [flush, if_neg h]

theorem step_stateTexts (skip : Bool) (s : BCState) (lb : LabeledBlock) :
    stateTexts (step skip s lb) = stateTexts s
    ∨ (stateTexts (step skip s lb) = stateTexts s ++ [lb.text]
        ∧ ¬lb.cue_pattern = CP_HEADING) := by
  by_cases h1 : skip = true ∧ lb.cue_pattern = CP_META
  · rw [step_meta_eq s h1.1 h1.2]; exact Or.inl rfl
  · by_cases h2 : lb.cue_pattern = CP_HEADING
    · rw [step_heading_eq s h2]; exact Or.inl (stepHeading_stateTexts s lb)
    · rw [step_content_eq s h1 h2]
      exact Or.inr ⟨stepContent_stateTexts s lb, h2⟩

theorem foldl_stateTexts (skip : Bool) (l : List LabeledBlock) : ∀ s : BCState,
    ∀ t ∈ stateTexts (l.foldl (step skip) s),
      t ∈ stateTexts s
      ∨ ∃ lb ∈ l, t = lb.text ∧ ¬lb.cue_pattern = CP_HEADING := by
  induction l with
  | nil => intro s t ht; exact Or.inl ht
  | cons lb l' ih =>
    intro s t ht
    rw [List.foldl_cons] at ht
    rcases ih (step skip s lb) t ht with h | h
    · rcases step_stateTexts skip s lb with hs | hs
      · rw [hs] at h; exact Or.inl h
      · rw [hs.1] at h
        rcases List.mem_append.mp h with h' | h'
        · exact Or.inl h'
        · refine Or.inr ⟨lb, List.mem_cons_self lb l', ?_, hs.2⟩
          simpa using h'
    · obtain ⟨x, hx, hxx⟩ := h
      exact Or.inr ⟨x, List.mem_cons_of_mem lb hx, hxx⟩

theorem build_chunks_texts_src (skip : Bool) (l : List LabeledBlock)
    (c : Chunk) (hc : c ∈ build_chunks l skip) (t : Str) (ht : t ∈ c.texts) :
    ∃ lb ∈ l, t = lb.text ∧ ¬lb.cue_pattern = CP_HEADING := by
  have h1 : t ∈ stateTexts (flush (l.foldl (step skip) initState)) := by
    apply List.mem_append_left
    exact List.mem_flatten.mpr ⟨c.texts, List.mem_map_of_mem _ hc, ht⟩
  rw [flush_stateTexts] at h1
  rcases foldl_stateTexts skip l initState t h1 with h | h
  · simp [stateTexts, initState] at h
  · exact h

theorem chunksHeadings_append (xs : List Chunk) (c : Chunk) :
    chunksHeadings (xs ++ [c]) = chunksHeadings xs ++ c.headings := by
  simp [chunksHeadings]

theorem foldl_headings (skip : Bool) (l : List LabeledBlock) : ∀ s : BCState,
    chunksHeadings (flush (l.foldl (step skip) s)).chunks
      = chunksHeadings s.chunks ++
        (if s.current_texts = [] then keptHeadings skip s.current_headings l
         else s.current_headings ++ keptHeadings skip [] l) := by
  induction l with
  | nil =>
    intro s
    simp only [List.foldl_nil, keptHeadings]
    by_cases h : s.current_texts = []
    · rw [flush_id h, if_pos h]; simp
    · rw [flush, if_neg h, if_neg h]
      simp [chunksHeadings_append, mkChunk]
  | cons lb l' ih =>
    intro s
    rw [List.foldl_cons, ih (step skip s lb)]
    by_cases h1 : skip = true ∧ lb.cue_pattern = CP_META
    · rw [step_meta_eq s h1.1 h1.2]
      have hk : ∀ pending, keptHeadings skip pending (lb :: l')
          = keptHeadings skip pending l' := by
        intro pending
        simp only [keptHeadings]
        rw [if_pos h1]
      by_cases h : s.current_texts = []
      · rw [if_pos h, if_pos h, hk]
      · rw [if_neg h, if_neg h, hk]
    · by_cases h2 : lb.cue_pattern = CP_HEADING
      · rw [step_heading_eq s h2]
        have hm : ¬(skip = true ∧ lb.cue_pattern = CP_HEADING ∧ False) := by simp
        have hk : ∀ pending, keptHeadings skip pending (lb :: l')
            = keptHeadings skip (pending ++ [lb.text]) l' := by
          intro pending
          simp only [keptHeadings]
          rw [if_neg (fun hmm => absurd (h2.symm.trans hmm.2) (by decide)), if_pos h2]
        by_cases h : s.current_texts = []
        · have hflush : flush s = s := flush_id h
          have hfields : (stepHeading s lb).chunks = s.chunks
              ∧ (stepHeading s lb).current_texts = s.current_texts
              ∧ (stepHeading s lb).current_headings
                  = s.current_headings ++ [lb.text] := by
            simp [stepHeading, hflush]
          rw [hfields.1, hfields.2.1, hfields.2.2, if_pos h, if_pos h, hk]
        · have hfields : (stepHeading s lb).chunks = s.chunks ++ [mkChunk s]
              ∧ (stepHeading s lb).current_texts = []
              ∧ (stepHeading s lb).current_headings = [lb.text] := by
            simp [stepHeading, flush, h, mkChunk]
          rw [hfields.1, hfields.2.1, hfields.2.2, if_pos rfl, if_neg h, hk]
          rw [chunksHeadings_append]
          simp [mkChunk, List.append_assoc]
      · rw [step_content_eq s h1 h2]
        have hk : keptHeadings skip s.current_headings (lb :: l')
            = s.current_headings ++ keptHeadings skip [] l' := by
          simp only [keptHeadings]
          rw [if_neg h1, if_neg h2]
        have hk0 : keptHeadings skip [] (lb :: l')
            = keptHeadings skip [] l' := by
          simp only [keptHeadings]
          rw [if_neg h1, if_neg h2]
          simp
        rw [if_neg (stepContent_texts_ne s lb)]
        rcases stepContent_chunks_headings s lb with ⟨hch, hhd⟩ | ⟨hch, hhd, hne⟩
        · rw [hch, hhd]
          by_cases h : s.current_texts = []
          · rw [if_pos h, hk]
          · rw [if_neg h, hk0]
        · rw [hch, hhd, chunksHeadings_append, if_neg hne, hk0]
          simp [mkChunk, List.append_assoc]

theorem label_blocks_cue_of_text {bs : List Block} {lb : LabeledBlock}
    (h : lb ∈ label_blocks bs) : lb.cue_pattern = detectCore lb.text := by
  simp only [label_blocks, List.mem_map] at h
  obtain ⟨b, -, hb⟩ := h
  subst hb
  rfl

theorem detectCore_total (t : Str) : detectCore t ∈ ALL_CUES := by
  simp only [detectCore]
  repeat' split
  all_goals decide

theorem glossary_is_heading (t : Str)
    (hpre : (GLOSSARY_HEADINGS.any fun h => h.isPrefixOf (toLowerStr t)) = true)
    (hidem : normalize_text t = t) : is_heading_text t = true := by
  have hne : t.isEmpty = false := by
    cases t with
    | nil => exact absurd hpre (by decide)
    | cons c cs => rfl
  simp only [is_heading_text, hidem]
  by_cases hbt : matchBabTopik (toLowerStr t) = true
  · simp [hne, hbt]
  · simp [hne, hbt, hpre]

theorem glossary_detect (t : Str)
    (hpre : (GLOSSARY_HEADINGS.any fun h => h.isPrefixOf (toLowerStr t)) = true)
    (hmeta : looks_like_book_meta t = false)
    (hidem : normalize_text t = t) : detectCore t = CP_GLOSSARY := by
  simp only [detectCore]
  rw [if_neg (by simp [hmeta]), if_pos (glossary_is_heading t hpre hidem), if_pos hpre]

theorem looks_like_continuation_true {pt ct : Str}
    (hprev : normalize_text pt ≠ [])
    (hcur : normalize_text ct ≠ [])
    (hpunct : endsWithAny (normalize_text pt) ['.', '!', '?', '…', ':'] = false)
    (hstart : (match ((normalize_text ct).dropWhile isPyWs).head? with
               | some c => isAsciiLower c
               | none => false) = true
              ∨ (CONT_CONNECTORS.any fun p =>
                  p.isPrefixOf (toLowerStr ((normalize_text ct).dropWhile isPyWs))) = true)
    (hshort : (pySplit (normalize_text ct)).length ≤ 25) :
    looks_like_continuation pt ct = true := by
  simp only [looks_like_continuation]
  rw [if_neg, if_neg (by simp [hpunct])]
  · rw [Bool.and_eq_true]
    refine ⟨Bool.or_eq_true_iff.mpr ?_, by simp [hshort]⟩
    rcases hstart with h | h
    · exact Or.inl h
    · exact Or.inr h
  · simp [List.isEmpty_eq_true, hprev, hcur]

theorem coercion_guards_false (a : Option Str) (le : Option LabeledBlock)
    (lt : Str) (lb : LabeledBlock) :
    ¬(updateLock a lb.cue_pattern = some (lit "INSTRUKSI")
      ∧ (continuationForce le lt lb).1 ∈ [CP_NARRATIVE, CP_FACT, CP_INTRO])
    ∧ ¬(updateLock a lb.cue_pattern = some (lit "EVALUASI")
      ∧ (continuationForce le lt lb).1 ∈ [CP_FACT, CP_INTRO]) := by
  constructor
  · rintro ⟨hact, hmem⟩
    rcases continuationForce_cases le lt lb with h | h | h <;> rw [h] at hmem
    · revert hmem; decide
    · revert hmem; decide
    · simp only [List.mem_cons, List.not_mem_nil, or_false] at hmem
      have hmem' : lb.cue_pattern ∈ CONTENT_CUES := by
        rcases hmem with h' | h' | h' <;> rw [h'] <;> decide
      rw [updateLock_content a hmem'] at hact
      cases hact
  · rintro ⟨hact, hmem⟩
    rcases continuationForce_cases le lt lb with h | h | h <;> rw [h] at hmem
    · revert hmem; decide
    · revert hmem; decide
    · simp only [List.mem_cons, List.not_mem_nil, or_false] at hmem
      have hmem' : lb.cue_pattern ∈ CONTENT_CUES := by
        rcases hmem with h' | h' <;> rw [h'] <;> decide
      rw [updateLock_content a hmem'] at hact
      cases hact

theorem ssnc_konsep (pv q : LabeledBlock) (hq : q.category = lit "KONSEP") :
    should_start_new_chunk (some pv) q = true ↔ ¬pv.category = lit "KONSEP" := by
  simp only [should_start_new_chunk]
  rw [if_neg (fun hh => absurd (hq.symm.trans hh.2) (by decide)),
    if_neg (fun hh => absurd (hq.symm.trans hh.2) (by decide))]
  by_cases hpc : pv.category = lit "KONSEP"
  · rw [if_neg (fun hh => hh (hpc.trans hq.symm))]
    simp [hpc]
  · rw [if_pos (fun hh => hpc (hh.trans hq))]
    simp [hpc]

/-! ## The claims -/

/-- C1 (code bug evaluation): on the labeled sequence
[IMPERATIVE, FACT-containing-an-imperative-verb, IMPERATIVE] the lock-driven
coercion never fires — the FACT cue clears the activity lock in the same
iteration, before the coercion check — so the code yields three chunks with
the middle one KONSEP instead of one all-INSTRUKSI chunk. -/
theorem claim_C1_code_eval :
    exC1.map (fun lb => lb.cue_pattern) = [CP_IMPERATIVE, CP_FACT, CP_IMPERATIVE]
    ∧ exC1.map (fun lb => contains_imperative_anywhere lb.text) = [true, true, true]
    ∧ looks_like_continuation (lit "Amati gambar berikut.")
        (lit "Teks itu berisi kata amati.") = false
    ∧ (build_chunks exC1 true).map (fun c => c.categories)
        = [[lit "INSTRUKSI"], [lit "KONSEP"], [lit "INSTRUKSI"]]
    ∧ (build_chunks exC1 true).length = 3 := by decide

/-- C2 (counterexample): at the second step of `exC2` every condition of the
claim holds (non-empty accumulator, previous effective category EVALUASI, no
strong punctuation, lowercase/connector start, ≤ 25 words — witnessed by
`looks_like_continuation` returning true), yet the block's effective category
becomes INSTRUKSI (its own IMPERATIVE cue set the lock, and the resolution
step overrides the continuation-forced EVALUASI), not the previous category. -/
theorem claim_C2_counterexample :
    looks_like_continuation
        (lit "Kerjakan latihan berikut bersama teman sebangku di kelas")
        (lit "tuliskan jawaban kalian di buku tugas.") = true
    ∧ exC2.map (fun lb => lb.cue_pattern) = [CP_EVALUATIVE, CP_IMPERATIVE]
    ∧ (build_chunks exC2 true).map (fun c => c.categories)
        = [[lit "EVALUASI"], [lit "INSTRUKSI"]]
    ∧ (build_chunks exC2 true).length = 2 := by decide

/-- C2 (amended): under the claim's conditions — non-empty accumulator, the
last chunk text non-empty and not ending in strong punctuation, the current
normalized text non-empty, starting with an ASCII lowercase letter or a
continuative connector, and at most 25 words — the effective cue becomes
IMPERATIVE (resp. EVALUATIVE) matching the previous effective category
INSTRUKSI (resp. EVALUASI), and the effective category equals that previous
category provided the block's own cue does not leave the activity lock at
the opposite value. -/
theorem claim_C2_amended (s : BCState) (lb prev : LabeledBlock)
    (hle : s.last_effective = some prev)
    (_hacc : s.current_texts ≠ [])
    (hprev : normalize_text s.last_text_in_chunk ≠ [])
    (hcur : normalize_text lb.text ≠ [])
    (hpunct : endsWithAny (normalize_text s.last_text_in_chunk)
        ['.', '!', '?', '…', ':'] = false)
    (hstart : (match ((normalize_text lb.text).dropWhile isPyWs).head? with
               | some c => isAsciiLower c
               | none => false) = true
              ∨ (CONT_CONNECTORS.any fun p =>
                  p.isPrefixOf (toLowerStr ((normalize_text lb.text).dropWhile isPyWs))) = true)
    (hshort : (pySplit (normalize_text lb.text)).length ≤ 25) :
    (prev.category = lit "INSTRUKSI" →
      continuationForce s.last_effective s.last_text_in_chunk lb
          = (CP_IMPERATIVE, lit "INSTRUKSI")
      ∧ (¬updateLock s.current_activity lb.cue_pattern = some (lit "EVALUASI") →
          (effectiveLB (updateLock s.current_activity lb.cue_pattern) s.last_effective
              s.last_text_in_chunk lb).cue_pattern = CP_IMPERATIVE
          ∧ (effectiveLB (updateLock s.current_activity lb.cue_pattern) s.last_effective
              s.last_text_in_chunk lb).category = lit "INSTRUKSI"))
    ∧ (prev.category = lit "EVALUASI" →
      continuationForce s.last_effective s.last_text_in_chunk lb
          = (CP_EVALUATIVE, lit "EVALUASI")
      ∧ (¬updateLock s.current_activity lb.cue_pattern = some (lit "INSTRUKSI") →
          (effectiveLB (updateLock s.current_activity lb.cue_pattern) s.last_effective
              s.last_text_in_chunk lb).cue_pattern = CP_EVALUATIVE
          ∧ (effectiveLB (updateLock s.current_activity lb.cue_pattern) s.last_effective
              s.last_text_in_chunk lb).category = lit "EVALUASI")) := by
  have hcont := looks_like_continuation_true hprev hcur hpunct hstart hshort
  constructor
  · intro hp
    have hcf : continuationForce s.last_effective s.last_text_in_chunk lb
        = (CP_IMPERATIVE, lit "INSTRUKSI") := by
      rw [hle]
      simp only [continuationForce]
      rw [if_pos hcont, if_pos hp]
    refine ⟨hcf, fun hact => ?_⟩
    have hfc : coerceLock (updateLock s.current_activity lb.cue_pattern) lb
        (continuationForce s.last_effective s.last_text_in_chunk lb)
        = (CP_IMPERATIVE, lit "INSTRUKSI") := by
      rw [coerceLock_on_updated_lock, hcf]
    constructor
    · simp only [effectiveLB, hfc]
    · simp only [effectiveLB, hfc]
      simp only [resolveCat]
      by_cases hai : updateLock s.current_activity lb.cue_pattern
          = some (lit "INSTRUKSI")
      · rw [if_pos ⟨Or.inl hai, by simp⟩, hai]
        rfl
      · rw [if_neg]
        rintro ⟨hor, -⟩
        rcases hor with h | h
        · exact hai h
        · exact hact h
  · intro hp
    have hcf : continuationForce s.last_effective s.last_text_in_chunk lb
        = (CP_EVALUATIVE, lit "EVALUASI") := by
      rw [hle]
      simp only [continuationForce]
      rw [if_pos hcont]
      by_cases hpi : prev.category = lit "INSTRUKSI"
      · rw [hpi] at hp; exact absurd hp (by decide)
      · rw [if_neg hpi, if_pos hp]
    refine ⟨hcf, fun hact => ?_⟩
    have hfc : coerceLock (updateLock s.current_activity lb.cue_pattern) lb
        (continuationForce s.last_effective s.last_text_in_chunk lb)
        = (CP_EVALUATIVE, lit "EVALUASI") := by
      rw [coerceLock_on_updated_lock, hcf]
    constructor
    · simp only [effectiveLB, hfc]
    · simp only [effectiveLB, hfc]
      simp only [resolveCat]
      by_cases hae : updateLock s.current_activity lb.cue_pattern
          = some (lit "EVALUASI")
      · rw [if_pos ⟨Or.inr hae, by simp⟩, hae]
        rfl
      · rw [if_neg]
        rintro ⟨hor, -⟩
        rcases hor with h | h
        · exact hact h
        · exact hae h

/-- C2 (witness): the amended claim applied to a concrete mid-run state with
an EVALUASI opener and a FACT continuation fragment. -/
theorem claim_C2_witness :
    continuationForce sC2w.last_effective sC2w.last_text_in_chunk lbC2w
        = (CP_EVALUATIVE, lit "EVALUASI")
    ∧ (effectiveLB (updateLock sC2w.current_activity lbC2w.cue_pattern)
        sC2w.last_effective sC2w.last_text_in_chunk lbC2w).category
        = lit "EVALUASI" := by
  have h := claim_C2_amended sC2w lbC2w prevC2w (by decide) (by decide) (by decide)
    (by decide) (by decide) (Or.inl (by decide)) (by decide)
  have h2 := h.2 (by decide)
  exact ⟨h2.1, (h2.2 (by decide)).2⟩

/-- C3: the total number of `block_ids` entries across all chunks returned by
`build_chunks` equals the number of input labeled blocks whose cue is neither
HEADING nor, when skip-meta is enabled, META. -/
theorem claim_C3_cardinality (labeled : List LabeledBlock) (skip : Bool) :
    totalBlockIds (build_chunks labeled skip) = countContent skip labeled := by
  have hlen : (labeled.foldl (step skip) initState).current_texts.length
      = (labeled.foldl (step skip) initState).current_ids.length :=
    foldl_lenInv skip labeled initState rfl
  have hm := foldl_measure skip labeled initState
  have hf := flush_measure (labeled.foldl (step skip) initState)
  have hids := flush_final_ids _ hlen
  rw [build_chunks]
  have htot : totalBlockIds (flush (labeled.foldl (step skip) initState)).chunks
      + (flush (labeled.foldl (step skip) initState)).current_ids.length
      = countContent skip labeled := by
    rw [hf, hm]
    simp [initState, totalBlockIds]
  rw [hids] at htot
  simpa using htot

/-- C4 (counterexample): two consecutive heading blocks with no following
content yield zero chunks, so the first heading — which is not the last block
of the stream — appears in no chunk's `meta.headings`, contradicting
"exactly one chunk unless it is the last block". -/
theorem claim_C4_counterexample :
    exC4.map (fun lb => lb.cue_pattern) = [CP_HEADING, CP_HEADING]
    ∧ exC4.length = 2
    ∧ build_chunks exC4 true = [] := by decide

/-- C4 (amended): for label-produced input, a heading block's text never
appears in any chunk's `texts`; and the concatenation of all chunks'
`meta.headings` equals exactly the heading texts that are followed by a
later content block (pending headings at a boundary are sealed with the
chunk opened by the next content block; headings never followed by content —
the last block, or ones followed only by headings and skipped META blocks —
appear in no chunk). -/
theorem claim_C4_amended (bs : List Block) (skip : Bool) :
    (∀ c ∈ build_chunks (label_blocks bs) skip, ∀ hb ∈ label_blocks bs,
        hb.cue_pattern = CP_HEADING → ¬ hb.text ∈ c.texts)
    ∧ chunksHeadings (build_chunks (label_blocks bs) skip)
        = keptHeadings skip [] (label_blocks bs) := by
  constructor
  · intro c hc hb hbmem hbcue hmem
    obtain ⟨lb, hlb, heq, hne⟩ := build_chunks_texts_src skip _ c hc _ hmem
    have h1 := label_blocks_cue_of_text hlb
    have h2 := label_blocks_cue_of_text hbmem
    rw [← heq] at h1
    exact hne (h1.trans (h2.symm.trans hbcue))
  · rw [build_chunks, foldl_headings]
    simp [initState, chunksHeadings, keptHeadings]

/-- C4 (witness): on a concrete heading + definition input, the heading text
is not among the chunk's texts and is the single collected heading. -/
theorem claim_C4_witness :
    ¬ exC4hblock.text ∈ exC4chunk.texts
    ∧ chunksHeadings (build_chunks (label_blocks exC4blocks) true)
        = [lit "Bab 1 Cahaya"] := by
  have h := claim_C4_amended exC4blocks true
  refine ⟨h.1 exC4chunk (by decide) exC4hblock (by decide) (by decide), ?_⟩
  rw [h.2]
  decide

/-- C5: with skip-meta enabled, a BOOK_META block leaves the entire reducer
state unchanged — chunks, lock, accumulator, trackers and counter. -/
theorem claim_C5_meta_frame (s : BCState) (lb : LabeledBlock)
    (h : lb.cue_pattern = CP_META) : step true s lb = s :=
  step_meta_eq s rfl h

/-- C5 (witness): a concrete ISBN-like block leaves a concrete mid-run state
untouched. -/
theorem claim_C5_witness :
    exC5meta.cue_pattern = CP_META ∧ step true sC5w exC5meta = sC5w :=
  ⟨by decide, claim_C5_meta_frame sC5w exC5meta (by decide)⟩

/-- C6 (counterexample): a glossary block whose lowercase text continues an
unterminated INSTRUKSI line is captured by continuation repair, so no chunk
boundary is triggered although a non-empty accumulator with previous
effective category INSTRUKSI (≠ KONSEP) is open — the claim's "exactly
when" fails. -/
theorem claim_C6_counterexample :
    detectCore (normalize_text (lit "kosakata baru dan artinya")) = CP_GLOSSARY
    ∧ looks_like_book_meta (normalize_text (lit "kosakata baru dan artinya")) = false
    ∧ exC6.map (fun lb => lb.cue_pattern) = [CP_IMPERATIVE, CP_GLOSSARY]
    ∧ (build_chunks exC6 true).length = 1
    ∧ (build_chunks exC6 true).map (fun c => c.categories)
        = [[lit "INSTRUKSI", lit "INSTRUKSI"]] := by decide

/-- C6 (amended): a block whose normalized lowercased text starts with the
glossary prefix and is not book-meta classifies as GLOSSARY (category
KONSEP); processing it resets the lock to NONE, and — provided continuation
repair does not rewrite it — a chunk boundary is triggered exactly when a
non-empty accumulator whose previous effective category differs from KONSEP
is open. -/
theorem claim_C6_amended (b : Block) (s : BCState) (lb : LabeledBlock)
    (hpre : (GLOSSARY_HEADINGS.any fun h =>
        h.isPrefixOf (toLowerStr (normalize_text b.text))) = true)
    (hmeta : looks_like_book_meta (normalize_text b.text) = false)
    (hcue : lb.cue_pattern = CP_GLOSSARY)
    (hcat : lb.category = lit "KONSEP")
    (hnocont : s.last_effective = none
      ∨ looks_like_continuation s.last_text_in_chunk lb.text = false)
    (hre : s.current_texts ≠ [] → ∃ p, s.last_effective = some p) :
    detect_cue_pattern b = CP_GLOSSARY
    ∧ cue_to_category CP_GLOSSARY = lit "KONSEP"
    ∧ updateLock s.current_activity lb.cue_pattern = none
    ∧ ((should_start_new_chunk s.last_effective
          (effectiveLB (updateLock s.current_activity lb.cue_pattern) s.last_effective
            s.last_text_in_chunk lb) = true ∧ s.current_texts ≠ [])
        ↔ (s.current_texts ≠ []
            ∧ ∀ p, s.last_effective = some p → ¬p.category = lit "KONSEP")) := by
  have hupd : updateLock s.current_activity lb.cue_pattern = none := by
    rw [hcue]; rfl
  refine ⟨?_, by decide, hupd, ?_⟩
  · exact glossary_detect (normalize_text b.text) hpre hmeta (normalize_text_idem b.text)
  · cases hle : s.last_effective with
    | none =>
      have htx : s.current_texts = [] := by
        by_cases h : s.current_texts = []
        · exact h
        · obtain ⟨p, hp⟩ := hre h
          rw [hle] at hp
          cases hp
      simp [htx]
    | some p =>
      have hcf2 : continuationForce (some p) s.last_text_in_chunk lb
          = (lb.cue_pattern, lb.category) := by
        rcases hnocont with h | h
        · rw [hle] at h; cases h
        · simp only [continuationForce]
          rw [if_neg (by simp [h])]
      have hco : coerceLock (updateLock s.current_activity lb.cue_pattern) lb
          (continuationForce (some p) s.last_text_in_chunk lb)
          = (lb.cue_pattern, lb.category) := by
        have hcl := coerceLock_on_updated_lock s.current_activity (some p)
          s.last_text_in_chunk lb
        rw [hcl, hcf2]
      have heff2 : (effectiveLB (updateLock s.current_activity lb.cue_pattern)
          (some p) s.last_text_in_chunk lb).category = lit "KONSEP" := by
        simp only [effectiveLB, hco]
        simp only [resolveCat, hupd]
        rw [if_neg]
        · exact hcat
        · rintro ⟨hor, -⟩
          rcases hor with h | h <;> cases h
      constructor
      · rintro ⟨hb, hne⟩
        refine ⟨hne, fun q hq => ?_⟩
        have hqp : q = p := by
          injection hq with h
          exact h.symm
        subst hqp
        exact (ssnc_konsep q _ heff2).mp hb
      · rintro ⟨hne, hcatne⟩
        exact ⟨(ssnc_konsep p _ heff2).mpr (hcatne p rfl), hne⟩

/-- C6 (witness): the amended claim applied to a concrete glossary block
after an INSTRUKSI block with terminal punctuation — the lock resets and a
boundary fires. -/
theorem claim_C6_witness :
    detect_cue_pattern bC6w = CP_GLOSSARY
    ∧ updateLock sC6w.current_activity lbC6w.cue_pattern = none
    ∧ should_start_new_chunk sC6w.last_effective
        (effectiveLB (updateLock sC6w.current_activity lbC6w.cue_pattern)
          sC6w.last_effective sC6w.last_text_in_chunk lbC6w) = true
    ∧ sC6w.current_texts ≠ [] := by
  have h := claim_C6_amended bC6w sC6w lbC6w (by decide) (by decide) (by decide)
    (by decide) (Or.inr (by decide)) (fun _ => ⟨prevC6w, by decide⟩)
  have hb := h.2.2.2.mpr ⟨by decide, ?_⟩
  · exact ⟨h.1, h.2.2.1, hb.1, hb.2⟩
  · intro p hp
    have hpe : some prevC6w = some p :=
      (by decide : sC6w.last_effective = some prevC6w).symm.trans hp
    injection hpe with hpe'
    rw [← hpe']
    decide

/-- C7: `normalize_text` is idempotent. -/
theorem claim_C7_idempotent (s : Str) :
    normalize_text (normalize_text s) = normalize_text s :=
  normalize_text_idem s

/-- C8: the empty text normalizes to the empty string and classifies as the
default FACT cue with category KONSEP; the classifier is total and always
returns exactly one of the eleven cue patterns. -/
theorem claim_C8_total :
    normalize_text [] = []
    ∧ (∀ (i bt : Str) (m : Option MetaBag),
        detect_cue_pattern { id := i, text := [], block_type := bt, meta := m }
          = CP_FACT)
    ∧ cue_to_category CP_FACT = lit "KONSEP"
    ∧ (∀ b : Block, detect_cue_pattern b ∈ ALL_CUES) := by
  refine ⟨rfl, fun i bt m => ?_, by decide, fun b => detectCore_total _⟩
  show detectCore (normalize_text []) = CP_FACT
  decide

/-- C9: the lock-driven coercion branches are unreachable — after the lock
update of the same iteration, the guard of neither branch can hold, and the
coercion step is the identity on the continuation-forced pair. -/
theorem claim_C9_dead_coercion (a : Option Str) (le : Option LabeledBlock)
    (lt : Str) (lb : LabeledBlock) :
    ¬(updateLock a lb.cue_pattern = some (lit "INSTRUKSI")
      ∧ (continuationForce le lt lb).1 ∈ [CP_NARRATIVE, CP_FACT, CP_INTRO])
    ∧ ¬(updateLock a lb.cue_pattern = some (lit "EVALUASI")
      ∧ (continuationForce le lt lb).1 ∈ [CP_FACT, CP_INTRO])
    ∧ coerceLock (updateLock a lb.cue_pattern) lb (continuationForce le lt lb)
        = continuationForce le lt lb :=
  ⟨(coercion_guards_false a le lt lb).1, (coercion_guards_false a le lt lb).2,
   coerceLock_on_updated_lock a le lt lb⟩

/-- C10: a concrete run where continuation repair forces EVALUATIVE/EVALUASI
(the previous effective block is EVALUASI), while the block's own IMPERATIVE
cue sets the lock to INSTRUKSI; effective-category resolution overrides the
category to INSTRUKSI, a boundary opens, and the continuation is not merged
into the evaluative run. -/
theorem claim_C10_override :
    exC10.map (fun lb => lb.cue_pattern) = [CP_EVALUATIVE, CP_IMPERATIVE]
    ∧ looks_like_continuation
        (lit "Jawablah pertanyaan nomor satu sampai lima pada buku")
        (lit "menggambar hewan itu di buku kalian.") = true
    ∧ (build_chunks exC10 true).map (fun c => (c.cue_patterns, c.categories))
        = [([CP_EVALUATIVE], [lit "EVALUASI"]), ([CP_EVALUATIVE], [lit "INSTRUKSI"])]
    := by decide

end AdaptiveChunking
